import Mathlib

/-!
# ScratchRobin command line entry point (`cli/src/main.go`)

A shallow embedding of `main.go`: the root command literal, the seven package
level flag variables, `init` (flag registration and subcommand registration)
and `main` (exit status).

`main.go` calls into `github.com/spf13/pflag` and `github.com/spf13/cobra`.
The parts of those libraries that the calls reach (flag registration, flag
parsing, command lookup, command execution) are embedded here as well, as
executable definitions that follow the library functions of the same name
(pflag v1.0.5 `flag.go`, cobra v1.8 `command.go`, Go `strconv`).

Go strings are modelled by Lean strings (sequences of characters); every
byte test that the embedded library code performs compares against an ASCII
character, so the character view agrees with the byte view on UTF-8 input.
A Go `panic` is modelled by `Except.error`.
-/

namespace ScratchRobin

/-! ## Data model: the package level variables of `main.go` -/

/-- The seven global flag variables (`var ( verbose bool ... )`). -/
structure Config where
  verbose : Bool
  config : String
  host : String
  port : Int
  database : String
  user : String
  password : String
deriving DecidableEq, Repr

/-- The seven command variables passed to `rootCmd.AddCommand` in `init`. -/
inductive CmdVar where
  | connectCmd
  | queryCmd
  | schemaCmd
  | backupCmd
  | restoreCmd
  | statusCmd
  | configCmd
deriving DecidableEq, Repr

/-- Pointers to `bool` storage a flag can be bound to: `&verbose`, and the two
cells cobra allocates for its own `help` and `version` flags. -/
inductive BoolPtr where
  | verbose
  | help
  | version
deriving DecidableEq, Repr

/-- Pointers to the `string` variables: `&config`, `&host`, ... -/
inductive StringPtr where
  | config
  | host
  | database
  | user
  | password
deriving DecidableEq, Repr

/-- Pointers to the `int` variables: `&port`. A Go `int` is taken to be 64
bits wide, as on the platforms Go targets by default. -/
inductive IntPtr where
  | port
deriving DecidableEq, Repr

/-- The `pflag.Value` behind a flag: its type together with the bound pointer. -/
inductive Value where
  | boolValue (p : BoolPtr)
  | stringValue (p : StringPtr)
  | intValue (p : IntPtr)
deriving DecidableEq, Repr

/-- The type names pflag reports for a value (`Value.Type()`). -/
def Value.Type : Value → String
  | .boolValue _ => "bool"
  | .stringValue _ => "string"
  | .intValue _ => "int"

/-- A registered flag (`pflag.Flag`). -/
structure Flag where
  Name : String
  Shorthand : String
  Usage : String
  Value : Value
  DefValue : String
  NoOptDefVal : String
deriving DecidableEq, Repr

/-- A flag set (`pflag.FlagSet`): the flags in registration order. -/
structure FlagSet where
  formal : List Flag
deriving DecidableEq, Repr

/-- Everything flag registration and parsing can write to. -/
structure Store where
  cfg : Config
  help : Bool
  version : Bool
deriving DecidableEq, Repr

/-- The `cobra.Command` literal `rootCmd`, with the fields `init` fills in. -/
structure Command where
  Use : String
  Short : String
  Long : String
  Version : String
  pflags : FlagSet
  commands : List CmdVar
deriving DecidableEq, Repr

/-! ## pflag: lookup and registration -/

/-- Lookup of a flag by long name: `FlagSet.Lookup`. -/
def FlagSet.Lookup (f : FlagSet) (name : String) : Option Flag :=
  f.formal.find? (fun fl => fl.Name == name)

/-- Lookup of a flag by its one-letter shorthand: the `shorthands` map. -/
def FlagSet.ShorthandLookup (f : FlagSet) (c : Char) : Option Flag :=
  f.formal.find? (fun fl => fl.Shorthand.data == [c])

/-- Registration of a flag: `FlagSet.AddFlag`. It panics when the long name
is already defined, when the shorthand has more than one character, and when
the shorthand is already used. -/
def FlagSet.AddFlag (f : FlagSet) (flag : Flag) : Except String FlagSet :=
  match f.Lookup flag.Name with
  | some _ => .error "flag redefined"
  | none =>
    match flag.Shorthand.data with
    | [] => .ok { formal := f.formal ++ [flag] }
    | [c] =>
      match f.ShorthandLookup c with
      | some _ => .error "unable to redefine shorthand"
      | none => .ok { formal := f.formal ++ [flag] }
    | _ :: _ :: _ => .error "shorthand is more than one ASCII character"

/-- Writing through a `bool` pointer. -/
def Store.setBool (s : Store) (p : BoolPtr) (b : Bool) : Store :=
  match p with
  | .verbose => { s with cfg := { s.cfg with verbose := b } }
  | .help => { s with help := b }
  | .version => { s with version := b }

/-- Writing through a `string` pointer. -/
def Store.setString (s : Store) (p : StringPtr) (v : String) : Store :=
  match p with
  | .config => { s with cfg := { s.cfg with config := v } }
  | .host => { s with cfg := { s.cfg with host := v } }
  | .database => { s with cfg := { s.cfg with database := v } }
  | .user => { s with cfg := { s.cfg with user := v } }
  | .password => { s with cfg := { s.cfg with password := v } }

/-- Writing through an `int` pointer. -/
def Store.setInt (s : Store) (p : IntPtr) (v : Int) : Store :=
  match p with
  | .port => { s with cfg := { s.cfg with port := v } }

/-- Reading through a `string` pointer. -/
def Store.getString (s : Store) : StringPtr → String
  | .config => s.cfg.config
  | .host => s.cfg.host
  | .database => s.cfg.database
  | .user => s.cfg.user
  | .password => s.cfg.password

/-- The decimal digits of a natural number, produced from the least
significant end as `strconv.formatBits` does; `fuel` bounds the number of
digits. -/
def decimalDigitsAux : Nat → Nat → List Char → List Char
  | 0, _, acc => acc
  | fuel + 1, n, acc =>
    if n < 10 then Char.ofNat (48 + n) :: acc
    else decimalDigitsAux fuel (n / 10) (Char.ofNat (48 + n % 10) :: acc)

/-- The decimal digits of a natural number, most significant first. -/
def decimalDigits (n : Nat) : List Char := decimalDigitsAux (n + 1) n []

/-- Decimal text of an integer, as `strconv.Itoa` prints it. -/
def Itoa (v : Int) : String :=
  match v with
  | .ofNat n => String.mk (decimalDigits n)
  | .negSucc n => String.mk ('-' :: decimalDigits (n + 1))

/-- Text of a boolean, as `strconv.FormatBool` prints it. -/
def FormatBool (b : Bool) : String := if b then "true" else "false"

/-- Registration of a bool flag: `FlagSet.BoolVarP(p, name, shorthand, value,
usage)`. The variable receives the default, the flag gets `NoOptDefVal`
`"true"`. -/
def FlagSet.BoolVarP (f : FlagSet) (s : Store) (p : BoolPtr) (name shorthand : String)
    (value : Bool) (usage : String) : Except String (FlagSet × Store) :=
  match f.AddFlag { Name := name, Shorthand := shorthand, Usage := usage,
                    Value := .boolValue p, DefValue := FormatBool value,
                    NoOptDefVal := "true" } with
  | .error e => .error e
  | .ok g => .ok (g, s.setBool p value)

/-- Registration of a string flag: `FlagSet.StringVarP`. -/
def FlagSet.StringVarP (f : FlagSet) (s : Store) (p : StringPtr) (name shorthand : String)
    (value : String) (usage : String) : Except String (FlagSet × Store) :=
  match f.AddFlag { Name := name, Shorthand := shorthand, Usage := usage,
                    Value := .stringValue p, DefValue := value,
                    NoOptDefVal := "" } with
  | .error e => .error e
  | .ok g => .ok (g, s.setString p value)

/-- Registration of an int flag: `FlagSet.IntVarP`. -/
def FlagSet.IntVarP (f : FlagSet) (s : Store) (p : IntPtr) (name shorthand : String)
    (value : Int) (usage : String) : Except String (FlagSet × Store) :=
  match f.AddFlag { Name := name, Shorthand := shorthand, Usage := usage,
                    Value := .intValue p, DefValue := Itoa value,
                    NoOptDefVal := "" } with
  | .error e => .error e
  | .ok g => .ok (g, s.setInt p value)

/-! ## `main.go`: the root command and `init` -/

/-- The zero values the Go variables hold before `init` runs. -/
def zeroStore : Store :=
  { cfg := { verbose := false, config := "", host := "", port := 0,
             database := "", user := "", password := "" },
    help := false, version := false }

/-- The literal `rootCmd = &cobra.Command{...}`: no `Run`, no `Args`. -/
def rootCmd : Command :=
  { Use := "scratchrobin-cli",
    Short := "ScratchRobin Command Line Interface",
    Long := "A command line interface for managing ScratchBird databases.\nComplete documentation is available at https://scratchrobin.org/docs/cli",
    Version := "0.1.0",
    pflags := { formal := [] },
    commands := [] }

/-- Sequencing of registration steps that may panic. -/
def andThen {α β : Type} (x : Except String α) (k : α → Except String β) : Except String β :=
  match x with
  | .error e => .error e
  | .ok a => k a

/-- Adding a child command: `Command.AddCommand` appends to `commands`. -/
def Command.AddCommand (c : Command) (x : CmdVar) : Command :=
  { c with commands := c.commands ++ [x] }

/-- The seven flag registrations of `init`, in source order, on
`rootCmd.PersistentFlags()`. -/
def initFlags : Except String (FlagSet × Store) :=
  andThen (rootCmd.pflags.BoolVarP zeroStore .verbose "verbose" "v" false "verbose output") fun r1 =>
  andThen (r1.1.StringVarP r1.2 .config "config" "c" ""
    "config file (default is $HOME/.scratchrobin/config.yaml)") fun r2 =>
  andThen (r2.1.StringVarP r2.2 .host "host" "H" "localhost" "database server host") fun r3 =>
  andThen (r3.1.IntVarP r3.2 .port "port" "p" 5432 "database server port") fun r4 =>
  andThen (r4.1.StringVarP r4.2 .database "database" "d" "" "database name") fun r5 =>
  andThen (r5.1.StringVarP r5.2 .user "user" "U" "" "database user") fun r6 =>
  r6.1.StringVarP r6.2 .password "password" "W" ""
    "database password (prompt if not specified)"

/-- The function `init`: flag registration followed by the seven
`AddCommand` calls. The result is the root command and the variable store. -/
def init : Except String (Command × Store) :=
  andThen initFlags fun r =>
  let c0 : Command := { rootCmd with pflags := r.1 }
  let c1 := c0.AddCommand .connectCmd
  let c2 := c1.AddCommand .queryCmd
  let c3 := c2.AddCommand .schemaCmd
  let c4 := c3.AddCommand .backupCmd
  let c5 := c4.AddCommand .restoreCmd
  let c6 := c5.AddCommand .statusCmd
  let c7 := c6.AddCommand .configCmd
  .ok (c7, r.2)

/-- The persistent flag set as `init` leaves it, written out. -/
def persistentFlags : FlagSet :=
  { formal :=
    [ { Name := "verbose", Shorthand := "v", Usage := "verbose output",
        Value := .boolValue .verbose, DefValue := "false", NoOptDefVal := "true" },
      { Name := "config", Shorthand := "c",
        Usage := "config file (default is $HOME/.scratchrobin/config.yaml)",
        Value := .stringValue .config, DefValue := "", NoOptDefVal := "" },
      { Name := "host", Shorthand := "H", Usage := "database server host",
        Value := .stringValue .host, DefValue := "localhost", NoOptDefVal := "" },
      { Name := "port", Shorthand := "p", Usage := "database server port",
        Value := .intValue .port, DefValue := "5432", NoOptDefVal := "" },
      { Name := "database", Shorthand := "d", Usage := "database name",
        Value := .stringValue .database, DefValue := "", NoOptDefVal := "" },
      { Name := "user", Shorthand := "U", Usage := "database user",
        Value := .stringValue .user, DefValue := "", NoOptDefVal := "" },
      { Name := "password", Shorthand := "W",
        Usage := "database password (prompt if not specified)",
        Value := .stringValue .password, DefValue := "", NoOptDefVal := "" } ] }

/-- The variable store as `init` leaves it: the documented defaults. -/
def defaultConfig : Config :=
  { verbose := false, config := "", host := "localhost", port := 5432,
    database := "", user := "", password := "" }

/-- The store after `init`. -/
def initStore : Store := { cfg := defaultConfig, help := false, version := false }

/-! ## Go `strconv`: the conversions behind `boolValue.Set` and `intValue.Set` -/

/-- The two error kinds of `strconv.NumError`: `ErrSyntax` and `ErrRange`. -/
inductive NumError where
  | malformed
  | outOfRange
deriving DecidableEq, Repr

/-- The function `strconv.ParseBool`. -/
def ParseBool (s : String) : Option Bool :=
  if s ∈ ["1", "t", "T", "TRUE", "true", "True"] then some true
  else if s ∈ ["0", "f", "F", "FALSE", "false", "False"] then some false
  else none

/-- The helper `lower(c)` of `strconv`: `c | ('x' - 'X')`, on the character code. -/
def lower (c : Char) : Nat := c.toNat ||| 32

/-- The largest `uint64`. -/
def maxUint64 : Nat := 2 ^ 64 - 1

/-- The value of one character as a digit in `ParseUint`, if it is one. -/
def digitOf (c : Char) : Option Nat :=
  if 48 ≤ c.toNat ∧ c.toNat ≤ 57 then some (c.toNat - 48)
  else if 97 ≤ lower c ∧ lower c ≤ 122 then some (lower c - 97 + 10)
  else none

/-- The digit loop of `strconv.ParseUint` at bit size 64 with `base0` set:
the accumulated value `n`, whether an underscore was seen, and the error. On
a range error the value is `maxUint64`, on a malformed input it is 0. -/
def uintLoop (base : Nat) : List Char → Nat → Bool → Nat × Bool × Option NumError
  | [], n, us => (n, us, none)
  | c :: cs, n, us =>
    if c = '_' then uintLoop base cs n true
    else
      match digitOf c with
      | none => (0, us, some .malformed)
      | some d =>
        if base ≤ d then (0, us, some .malformed)
        else if maxUint64 / base + 1 ≤ n then (maxUint64, us, some .outOfRange)
        else if maxUint64 < n * base + d then (maxUint64, us, some .outOfRange)
        else uintLoop base cs (n * base + d) us

/-- The scan of `strconv.underscoreOK` over the number proper; `i` is the
class of the previous character: `'^'`, `'0'`, `'_'` or `'!'`. -/
def underscoreScan (hex : Bool) : List Char → Char → Bool
  | [], i => i != '_'
  | c :: cs, i =>
    if (48 ≤ c.toNat ∧ c.toNat ≤ 57) ∨ (hex = true ∧ 97 ≤ lower c ∧ lower c ≤ 102) then
      underscoreScan hex cs '0'
    else if c = '_' then
      if i != '0' then false else underscoreScan hex cs '_'
    else if i = '_' then false
    else underscoreScan hex cs '!'

/-- The function `strconv.underscoreOK`: underscores only separate digits. -/
def underscoreOK (s : List Char) : Bool :=
  let s1 := match s with
    | c :: cs => if c = '-' ∨ c = '+' then cs else s
    | [] => s
  match s1 with
  | c0 :: c1 :: cs =>
    if c0 = '0' ∧ (lower c1 = 98 ∨ lower c1 = 111 ∨ lower c1 = 120) then
      underscoreScan (lower c1 == 120) cs '0'
    else underscoreScan false s1 '^'
  | _ => underscoreScan false s1 '^'

/-- The function `strconv.ParseUint(s, 0, 64)`: value and error. -/
def ParseUint (s : List Char) : Nat × Option NumError :=
  match s with
  | [] => (0, some .malformed)
  | c0 :: rest =>
    let bb : Nat × List Char :=
      if c0 = '0' then
        match rest with
        | c1 :: c2 :: cs =>
          if lower c1 = 98 then (2, c2 :: cs)
          else if lower c1 = 111 then (8, c2 :: cs)
          else if lower c1 = 120 then (16, c2 :: cs)
          else (8, rest)
        | _ => (8, rest)
      else (10, s)
    let r := uintLoop bb.1 bb.2 0 false
    match r.2.2 with
    | some e => (r.1, some e)
    | none => if r.2.1 && !underscoreOK s then (0, some .malformed) else (r.1, none)

/-- The function `strconv.ParseInt(s, 0, 64)`: value and error. A malformed
input gives 0, an out of range input gives the nearest bound. -/
def ParseInt (s : String) : Int × Option NumError :=
  match s.data with
  | [] => (0, some .malformed)
  | c :: cs =>
    let neg : Bool := c == '-'
    let body : List Char := if c = '+' ∨ c = '-' then cs else c :: cs
    let r := ParseUint body
    if r.2 = some .malformed then (0, some .malformed)
    else if neg = false ∧ 2 ^ 63 ≤ r.1 then (2 ^ 63 - 1, some .outOfRange)
    else if neg = true ∧ 2 ^ 63 < r.1 then (-(2 ^ 63), some .outOfRange)
    else if neg then (-(r.1 : Int), none) else ((r.1 : Int), none)

/-! ## pflag: parsing -/

/-- The errors flag parsing can return. -/
inductive ParseErr where
  | badFlagForm
  | unknownFlag
  | unknownShorthand
  | needsArgument
  | invalidArgument
  | noSuchFlag
  | errHelp
deriving DecidableEq, Repr

/-- The mutable state of a parse: the variables, the names of the flags that
were set (`Changed`, in the order of `orderedActual`), and the positional
arguments collected so far (`FlagSet.args`). -/
structure ParseState where
  store : Store
  changed : List String
  args : List String
deriving DecidableEq, Repr

/-- The method `Value.Set` of the three value types. Each one assigns the
converted value to its variable even when the conversion fails. -/
def Value.Set (v : Value) (s : Store) (value : String) : Store × Bool :=
  match v with
  | .boolValue p =>
    match ParseBool value with
    | some b => (s.setBool p b, true)
    | none => (s.setBool p false, false)
  | .stringValue p => (s.setString p value, true)
  | .intValue p => (s.setInt p (ParseInt value).1, (ParseInt value).2 == none)

/-- The method `FlagSet.Set(name, value)`: look the flag up, set its value,
and on success record the flag as changed. -/
def FlagSet.Set (f : FlagSet) (st : ParseState) (name value : String) :
    ParseState × Option ParseErr :=
  match f.Lookup name with
  | none => (st, some .noSuchFlag)
  | some flag =>
    let r := flag.Value.Set st.store value
    if r.2 then
      ({ st with store := r.1,
                 changed := if name ∈ st.changed then st.changed else st.changed ++ [name] },
       none)
    else ({ st with store := r.1 }, some .invalidArgument)

/-- The call `strings.SplitN(name, "=", 2)`: the part before the first `=`
and, when there is one, the part after it. -/
def splitAtEq : List Char → List Char × Option (List Char)
  | [] => ([], none)
  | c :: cs =>
    if c = '=' then ([], some cs)
    else ((splitAtEq cs).1.cons c, (splitAtEq cs).2)

/-- The method `FlagSet.parseLongArg`; `name` is the token without its
leading `--`, `a` the arguments after the token. The result is the new
state, the error, and whether `a[0]` was consumed as the value. -/
def parseLongArg (f : FlagSet) (st : ParseState) (name : List Char) (a : List String) :
    ParseState × Option ParseErr × Bool :=
  match name with
  | [] => (st, some .badFlagForm, false)
  | c :: _ =>
    if c = '-' ∨ c = '=' then (st, some .badFlagForm, false)
    else
      match f.Lookup (String.mk (splitAtEq name).1) with
      | none =>
        if String.mk (splitAtEq name).1 = "help" then (st, some .errHelp, false)
        else (st, some .unknownFlag, false)
      | some flag =>
        match (splitAtEq name).2 with
        | some v =>
          ((f.Set st flag.Name (String.mk v)).1, (f.Set st flag.Name (String.mk v)).2, false)
        | none =>
          if flag.NoOptDefVal ≠ "" then
            ((f.Set st flag.Name flag.NoOptDefVal).1, (f.Set st flag.Name flag.NoOptDefVal).2, false)
          else
            match a with
            | v :: _ => ((f.Set st flag.Name v).1, (f.Set st flag.Name v).2, true)
            | [] => (st, some .needsArgument, false)

/-- The test `len(shorthands) > 2 && shorthands[1] == '='` of
`parseSingleShortArg`, on the characters after the shorthand letter: the
form `-f=arg` and its value `shorthands[2:]`. -/
def attachedValue : List Char → Option (List Char)
  | e :: x :: t => if e = '=' then some (x :: t) else none
  | _ => none

/-- The method `FlagSet.parseShortArg`, with its loop over
`parseSingleShortArg`; the argument is the token without its leading `-`. -/
def parseShortArg (f : FlagSet) (a : List String) :
    List Char → ParseState → ParseState × Option ParseErr × Bool
  | [], st => (st, none, false)
  | c :: cs, st =>
    if "test.".data.isPrefixOf (c :: cs) then (st, none, false)
    else
      match f.ShorthandLookup c with
      | none =>
        if c = 'h' then (st, some .errHelp, false) else (st, some .unknownShorthand, false)
      | some flag =>
        match attachedValue cs with
        | some v =>
          ((f.Set st flag.Name (String.mk v)).1, (f.Set st flag.Name (String.mk v)).2, false)
        | none =>
          if flag.NoOptDefVal ≠ "" then
            match (f.Set st flag.Name flag.NoOptDefVal).2 with
            | some e => ((f.Set st flag.Name flag.NoOptDefVal).1, some e, false)
            | none => parseShortArg f a cs (f.Set st flag.Name flag.NoOptDefVal).1
          else if cs ≠ [] then
            ((f.Set st flag.Name (String.mk cs)).1, (f.Set st flag.Name (String.mk cs)).2, false)
          else
            match a with
            | v :: _ => ((f.Set st flag.Name v).1, (f.Set st flag.Name v).2, true)
            | [] => (st, some .needsArgument, false)

/-- The method `FlagSet.parseArgs` (interspersed mode, the default). The
Boolean says that the head of the list was already consumed as the value of
the flag before it. -/
def parseArgs (f : FlagSet) : Bool → List String → ParseState → ParseState × Option ParseErr
  | _, [], st => (st, none)
  | true, _ :: rest, st => parseArgs f false rest st
  | false, s :: rest, st =>
    match s.data with
    | c0 :: c1 :: cs =>
      if c0 = '-' then
        if c1 = '-' then
          if cs = [] then ({ st with args := st.args ++ rest }, none)
          else
            match (parseLongArg f st cs rest).2.1 with
            | some e => ((parseLongArg f st cs rest).1, some e)
            | none => parseArgs f (parseLongArg f st cs rest).2.2 rest (parseLongArg f st cs rest).1
        else
          match (parseShortArg f rest (c1 :: cs) st).2.1 with
          | some e => ((parseShortArg f rest (c1 :: cs) st).1, some e)
          | none =>
            parseArgs f (parseShortArg f rest (c1 :: cs) st).2.2 rest
              (parseShortArg f rest (c1 :: cs) st).1
      else parseArgs f false rest { st with args := st.args ++ [s] }
    | _ => parseArgs f false rest { st with args := st.args ++ [s] }

/-- The method `FlagSet.Parse` with `ContinueOnError`. -/
def FlagSet.Parse (f : FlagSet) (s : Store) (arguments : List String) :
    ParseState × Option ParseErr :=
  parseArgs f false arguments { store := s, changed := [], args := [] }

/-! ## cobra: default flags, command lookup, execution -/

/-- The method `FlagSet.AddFlagSet`: every flag of `g` whose name is not yet
defined in `f` is added. (pflag visits `g` in name order; the flag set is a
map, so the order of `formal` is not observable through lookups.) -/
def FlagSet.AddFlagSet (f : FlagSet) (g : List Flag) : Except String FlagSet :=
  match g with
  | [] => .ok f
  | fl :: rest =>
    match f.Lookup fl.Name with
    | some _ => f.AddFlagSet rest
    | none => andThen (f.AddFlag fl) fun f1 => f1.AddFlagSet rest

/-- The method `Command.InitDefaultHelpFlag` on the merged flag set: a bool
flag `help` with shorthand `h`, unless a flag `help` exists. -/
def InitDefaultHelpFlag (f : FlagSet) (s : Store) (name : String) :
    Except String (FlagSet × Store) :=
  match f.Lookup "help" with
  | some _ => .ok (f, s)
  | none => f.BoolVarP s .help "help" "h" false ("help for " ++ name)

/-- The method `Command.InitDefaultVersionFlag`: when the command has a
version, a bool flag `version`, with shorthand `v` only if `v` is free. -/
def InitDefaultVersionFlag (f : FlagSet) (s : Store) (version name : String) :
    Except String (FlagSet × Store) :=
  if version = "" then .ok (f, s)
  else
    match f.Lookup "version" with
    | some _ => .ok (f, s)
    | none =>
      match f.ShorthandLookup 'v' with
      | none => f.BoolVarP s .version "version" "v" false ("version for " ++ name)
      | some _ => f.BoolVarP s .version "version" "" false ("version for " ++ name)

/-- The helper `hasNoOptDefVal` of cobra. -/
def hasNoOptDefVal (name : String) (fs : FlagSet) : Bool :=
  match fs.Lookup name with
  | none => false
  | some fl => fl.NoOptDefVal != ""

/-- The helper `shortHasNoOptDefVal` of cobra. -/
def shortHasNoOptDefVal (name : List Char) (fs : FlagSet) : Bool :=
  match name with
  | [] => false
  | c :: _ =>
    match fs.ShorthandLookup c with
    | none => false
    | some fl => fl.NoOptDefVal != ""

/-- The second and third case of the switch in `stripFlags` and
`argsMinusFirstX`: the token is `--flag` or `-f` (two bytes), has no `=`, and
the flag has no `NoOptDefVal`, so the next argument is taken as its value.
The token `--` itself is handled before this test. -/
def flagTakesNext (fs : FlagSet) (s : String) : Bool :=
  match s.data with
  | c0 :: c1 :: cs =>
    if c0 = '-' ∧ '=' ∉ s.data then
      if c1 = '-' then !hasNoOptDefVal (String.mk cs) fs
      else decide (cs = []) && decide (c1.toNat < 128) && !shortHasNoOptDefVal [c1] fs
    else false
  | _ => false

/-- The call `strings.HasPrefix(s, "-")`. -/
def startsWithDash (s : String) : Bool := s.data.head? == some '-'

/-- The function `stripFlags` of cobra: the words of the argument list that
command lookup regards as positional. -/
def stripFlags (fs : FlagSet) : List String → List String
  | [] => []
  | s :: args =>
    if s = "--" then []
    else if flagTakesNext fs s then
      match args with
      | [] => []
      | _ :: rest => if rest = [] then [] else stripFlags fs rest
    else if s ≠ "" ∧ startsWithDash s = false then s :: stripFlags fs args
    else stripFlags fs args

/-- The method `Command.argsMinusFirstX`: the argument list without the
first positional occurrence of `x`. -/
def argsMinusFirstX (fs : FlagSet) (x : String) : List String → List String
  | [] => []
  | s :: args =>
    if s = "--" then s :: args
    else if flagTakesNext fs s then
      match args with
      | [] => [s]
      | v :: rest => s :: v :: argsMinusFirstX fs x rest
    else if startsWithDash s = false then
      if s = x then args else s :: argsMinusFirstX fs x args
    else s :: argsMinusFirstX fs x args

/-- The declarations behind the seven command variables. `main.go` refers to
them but they are defined elsewhere; the definitions below take them as a
parameter: the name and aliases of each command, whether executing it on the
remaining arguments returns an error, and the same for the `completion`
command that cobra generates. -/
structure Subcommands where
  Name : CmdVar → String
  Aliases : CmdVar → List String
  execute : CmdVar → List String → Bool
  completion : List String → Bool

/-- The children of the root command at lookup time: the registered
commands, then the `help`, `completion` and `__complete` commands that
`ExecuteC` attaches. -/
inductive Child where
  | registered (x : CmdVar)
  | helpCmd
  | completionCmd
  | completeCmd
deriving DecidableEq, Repr

/-- The name of a child command (`Command.Name`). -/
def Child.Name (d : Subcommands) : Child → String
  | .registered x => d.Name x
  | .helpCmd => "help"
  | .completionCmd => "completion"
  | .completeCmd => "__complete"

/-- The aliases of a child command. -/
def Child.Aliases (d : Subcommands) : Child → List String
  | .registered x => d.Aliases x
  | .helpCmd => []
  | .completionCmd => []
  | .completeCmd => ["__completeNoDesc"]

/-- The children of the root after `InitDefaultHelpCmd`,
`InitDefaultCompletionCmd` (skipped when a command is already called
`completion`) and `initCompleteCmd`. -/
def children (d : Subcommands) (c : Command) : List Child :=
  c.commands.map .registered ++ [.helpCmd]
    ++ (if c.commands.any (fun x => d.Name x == "completion" || (d.Aliases x).contains "completion")
        then [] else [.completionCmd])
    ++ [.completeCmd]

/-- The method `Command.findNext` without prefix matching (the default): the
first child whose name or alias is the word. -/
def findNext (d : Subcommands) (cmds : List Child) (next : String) : Option Child :=
  cmds.find? (fun ch => ch.Name d == next || (ch.Aliases d).contains next)

/-- What one call of `rootCmd.Execute()` ended up doing. -/
inductive Action where
  | unknownCommand (word : String)
  | flagError (e : ParseErr)
  | showHelp
  | showVersion
  | runHelpCommand (a : List String)
  | runComplete (a : List String)
  | argsError
  | runChild (x : CmdVar) (a : List String)
  | runCompletion (a : List String)
deriving DecidableEq, Repr

/-- The observable result of `rootCmd.Execute()`: what was done, and whether
the returned error is non-nil. -/
structure Executed where
  action : Action
  err : Bool
deriving DecidableEq, Repr

/-- The registered subcommands an execution transferred control to. -/
def Action.dispatched : Action → List CmdVar
  | .runChild x _ => [x]
  | _ => []

/-- The flag set `c.Flags()` of the root command when `execute` parses: the
persistent flags merged in, then the default `help` and `version` flags. -/
def Command.Flags (c : Command) (s : Store) : Except String (FlagSet × Store) :=
  andThen (FlagSet.AddFlagSet { formal := [] } c.pflags.formal) fun f0 =>
  andThen (InitDefaultHelpFlag f0 s c.Use) fun r =>
  InitDefaultVersionFlag r.1 r.2 c.Version c.Use

/-- The flag set of the generated `help` command: the persistent flags of
its parent and its own default `help` flag (it has no version). -/
def helpCommandFlags (c : Command) (s : Store) : Except String (FlagSet × Store) :=
  andThen (FlagSet.AddFlagSet { formal := [] } c.pflags.formal) fun f0 =>
  InitDefaultHelpFlag f0 s "help"

/-- The method `Command.ParseFlags` on the root command. -/
def Command.ParseFlags (c : Command) (s : Store) (a : List String) :
    Except String (ParseState × Option ParseErr) :=
  andThen (c.Flags s) fun r => .ok (r.1.Parse r.2 a)

/-- The method `Command.execute` on the root command, which has no `Run`:
parse the flags; a parse error is returned; otherwise help is shown, or the
version when `--version` was given and `--help` was not. An `ErrHelp` from
the parser is turned into help by `ExecuteC`. -/
def Command.execute (c : Command) (s : Store) (a : List String) : Except String Executed :=
  andThen (c.ParseFlags s a) fun r =>
  match r.2 with
  | some .errHelp => .ok { action := .showHelp, err := false }
  | some e => .ok { action := .flagError e, err := true }
  | none =>
    if r.1.store.help then .ok { action := .showHelp, err := false }
    else if c.Version ≠ "" ∧ r.1.store.version = true then
      .ok { action := .showVersion, err := false }
    else .ok { action := .showHelp, err := false }

/-- The method `Command.execute` on the generated `help` command: parse the
flags, then print help; its `Run` returns nothing. -/
def executeHelpCommand (c : Command) (s : Store) (a : List String) : Except String Executed :=
  andThen (helpCommandFlags c s) fun r =>
  match (r.1.Parse r.2 a).2 with
  | some .errHelp => .ok { action := .showHelp, err := false }
  | some e => .ok { action := .flagError e, err := true }
  | none =>
    if (r.1.Parse r.2 a).1.store.help then .ok { action := .showHelp, err := false }
    else .ok { action := .runHelpCommand (r.1.Parse r.2 a).1.args, err := false }

/-- The method `Command.execute` on the hidden `__complete` command: flag
parsing is disabled, at least one argument is required (`MinimumNArgs(1)`),
and its `Run` returns nothing. -/
def executeComplete (a : List String) : Executed :=
  match a with
  | [] => { action := .argsError, err := true }
  | _ :: _ => { action := .runComplete a, err := false }

/-- The method `Command.ExecuteC` on the root command: look the command up
with `Find` (an unknown first word is an error for a root that has
subcommands and no `Args`), then execute the command found. -/
def Command.ExecuteC (c : Command) (d : Subcommands) (s : Store) (args : List String) :
    Except String Executed :=
  match stripFlags c.pflags args with
  | [] => c.execute s args
  | word :: _ =>
    match findNext d (children d c) word with
    | none => .ok { action := .unknownCommand word, err := true }
    | some .helpCmd => executeHelpCommand c s (argsMinusFirstX c.pflags word args)
    | some .completeCmd => .ok (executeComplete (argsMinusFirstX c.pflags word args))
    | some .completionCmd =>
      .ok { action := .runCompletion (argsMinusFirstX c.pflags word args),
            err := d.completion (argsMinusFirstX c.pflags word args) }
    | some (.registered x) =>
      .ok { action := .runChild x (argsMinusFirstX c.pflags word args),
            err := d.execute x (argsMinusFirstX c.pflags word args) }

/-- The call `rootCmd.Execute()` of `main`, after `init` has run. -/
def Execute (d : Subcommands) (args : List String) : Except String Executed :=
  andThen init fun r => r.1.ExecuteC d r.2 args

/-- The function `main`: the exit status of the process. `os.Exit(1)` when
`Execute` returns an error, a normal return (status 0) otherwise; a panic
ends a Go process with status 2. -/
def main (d : Subcommands) (args : List String) : Nat :=
  match Execute d args with
  | .error _ => 2
  | .ok r => if r.err then 1 else 0

/-- Modelled from the spec: the names of the seven subcommands, whose
declarations `main.go` does not contain (section 6: connect, query, schema,
backup, restore, status, config). -/
def specName : CmdVar → String
  | .connectCmd => "connect"
  | .queryCmd => "query"
  | .schemaCmd => "schema"
  | .backupCmd => "backup"
  | .restoreCmd => "restore"
  | .statusCmd => "status"
  | .configCmd => "config"

/-- Subcommand declarations with the names of the spec, no aliases, and the
given results. -/
def specSubcommands (result : Bool) : Subcommands :=
  { Name := specName, Aliases := fun _ => [], execute := fun _ _ => result,
    completion := fun _ => false }

/-- The root command as `init` leaves it, written out. -/
def initCmd : Command :=
  { rootCmd with
    pflags := persistentFlags,
    commands := [.connectCmd, .queryCmd, .schemaCmd, .backupCmd, .restoreCmd,
                 .statusCmd, .configCmd] }

/-- The default `help` flag cobra adds to a command called `name`. -/
def helpFlag (name : String) : Flag :=
  { Name := "help", Shorthand := "h", Usage := "help for " ++ name,
    Value := .boolValue .help, DefValue := "false", NoOptDefVal := "true" }

/-- The default `version` flag of the root command; its shorthand is empty
because `v` belongs to `verbose`. -/
def versionFlag : Flag :=
  { Name := "version", Shorthand := "", Usage := "version for scratchrobin-cli",
    Value := .boolValue .version, DefValue := "false", NoOptDefVal := "true" }

/-- The flag set the root command parses with, written out. -/
def rootFlags : FlagSet :=
  { formal := persistentFlags.formal ++ [helpFlag "scratchrobin-cli", versionFlag] }

/-- The rows of the flag table of the spec: long name, short name, type. -/
def documentedFlags : List (String × String × String) :=
  [("verbose", "v", "bool"), ("config", "c", "string"), ("host", "H", "string"),
   ("port", "p", "int"), ("database", "d", "string"), ("user", "U", "string"),
   ("password", "W", "string")]

/-- A token that the flag parser does not treat as a flag: it does not start
with `-`. -/
def positional (s : String) : Prop := startsWithDash s = false

instance (s : String) : Decidable (positional s) := by
  unfold positional; infer_instance

/-- Every persistent flag that the parse did not mark as changed still holds
its default. -/
def unchangedAtDefault (st : ParseState) : Prop :=
  ("verbose" ∉ st.changed → st.store.cfg.verbose = defaultConfig.verbose)
  ∧ ("config" ∉ st.changed → st.store.cfg.config = defaultConfig.config)
  ∧ ("host" ∉ st.changed → st.store.cfg.host = defaultConfig.host)
  ∧ ("port" ∉ st.changed → st.store.cfg.port = defaultConfig.port)
  ∧ ("database" ∉ st.changed → st.store.cfg.database = defaultConfig.database)
  ∧ ("user" ∉ st.changed → st.store.cfg.user = defaultConfig.user)
  ∧ ("password" ∉ st.changed → st.store.cfg.password = defaultConfig.password)

/-- The two argument lists that write the long flag `name` once with the
value `value`, as two tokens and as one token with `=`, between the
positional arguments `pre` and `post`. -/
def suppliedLong (name value : String) (pre post : List String) : List (List String) :=
  [pre ++ ("--" ++ name) :: value :: post, pre ++ ("--" ++ name ++ "=" ++ value) :: post]

/-- The state a successful parse ends in when it has set one flag `name`,
leaving the configuration `cfg` and the positional arguments `pos`. -/
def parsedOnce (cfg : Config) (name : String) (pos : List String) : ParseState :=
  { store := { initStore with cfg := cfg }, changed := [name], args := pos }

/-- The flag parse that `rootCmd.Execute()` performs when the root command
itself is executed, after `init` has run. -/
def rootParse (args : List String) : Except String (ParseState × Option ParseErr) :=
  andThen init fun r => r.1.ParseFlags r.2 args

/-- The words of an argument list that command lookup on the root command,
as `init` leaves it, regards as positional; the first one, if any, is looked
up as the name of a subcommand. -/
def commandWords (args : List String) : List String :=
  match init with
  | .ok r => stripFlags r.1.pflags args
  | .error _ => []

/-! ## The flags an argument list supplies -/

/-- Whether `Value.Set` accepts a text; this does not depend on the
variables. -/
def Value.accepts : Value → String → Bool
  | .boolValue _, w => (ParseBool w).isSome
  | .stringValue _, _ => true
  | .intValue _, w => (ParseInt w).2 == none

/-- Whether `FlagSet.Set(name, value)` returns without error. -/
def FlagSet.accepts (f : FlagSet) (name value : String) : Bool :=
  match f.Lookup name with
  | none => false
  | some flag => flag.Value.accepts value

/-- The effect of one call `FlagSet.Set(name, value)` on the variables. -/
def applyCall (f : FlagSet) (s : Store) (c : String × String) : Store :=
  match f.Lookup c.1 with
  | none => s
  | some flag => (flag.Value.Set s c.2).1

/-- The call `fn(flag, value)` that `parseLongArg` makes for a token, with
the flag name, the value, and whether `a[0]` is consumed; `none` when the
token is rejected before any call. -/
def longCall (f : FlagSet) (name : List Char) (a : List String) :
    Option (String × String × Bool) :=
  match name with
  | [] => none
  | c :: _ =>
    if c = '-' ∨ c = '=' then none
    else
      match f.Lookup (String.mk (splitAtEq name).1) with
      | none => none
      | some flag =>
        match (splitAtEq name).2 with
        | some v => some (flag.Name, String.mk v, false)
        | none =>
          if flag.NoOptDefVal ≠ "" then some (flag.Name, flag.NoOptDefVal, false)
          else
            match a with
            | v :: _ => some (flag.Name, v, true)
            | [] => none

/-- The calls `fn(flag, value)` that `parseShortArg` makes for a token when
no call fails, whether the token is read to its end without being rejected,
and whether `a[0]` is consumed. -/
def shortCalls (f : FlagSet) (a : List String) :
    List Char → List (String × String) × Bool × Bool
  | [] => ([], true, false)
  | c :: cs =>
    if "test.".data.isPrefixOf (c :: cs) then ([], true, false)
    else
      match f.ShorthandLookup c with
      | none => ([], false, false)
      | some flag =>
        match attachedValue cs with
        | some v => ([(flag.Name, String.mk v)], true, false)
        | none =>
          if flag.NoOptDefVal ≠ "" then
            ((flag.Name, flag.NoOptDefVal) :: (shortCalls f a cs).1,
             (shortCalls f a cs).2.1, (shortCalls f a cs).2.2)
          else if cs ≠ [] then ([(flag.Name, String.mk cs)], true, false)
          else
            match a with
            | v :: _ => ([(flag.Name, v)], true, true)
            | [] => ([], false, false)

/-- The flags an argument list supplies, with their values, in order: the
calls `fn(flag, value)` that `FlagSet.ParseAll` makes through `parseArgs`
for a callback that never fails. The walk ends at `--` and at the first
token that the parser rejects (unknown flag, malformed flag, missing
value). -/
def setCalls (f : FlagSet) : Bool → List String → List (String × String)
  | _, [] => []
  | true, _ :: rest => setCalls f false rest
  | false, s :: rest =>
    match s.data with
    | c0 :: c1 :: cs =>
      if c0 = '-' then
        if c1 = '-' then
          if cs = [] then []
          else
            match longCall f cs rest with
            | none => []
            | some r => (r.1, r.2.1) :: setCalls f r.2.2 rest
        else
          if (shortCalls f rest (c1 :: cs)).2.1 then
            (shortCalls f rest (c1 :: cs)).1
              ++ setCalls f (shortCalls f rest (c1 :: cs)).2.2 rest
          else (shortCalls f rest (c1 :: cs)).1
      else setCalls f false rest
    | _ => setCalls f false rest

/-- The long name of the flag that `init` binds to a string variable. -/
def StringPtr.flagName : StringPtr → String
  | .config => "config"
  | .host => "host"
  | .database => "database"
  | .user => "user"
  | .password => "password"

/-- The flags an argument list supplies to the root command, with their
values, in order: `setCalls` on the flag set the root command parses with
after `init`. -/
def suppliedFlags (args : List String) : List (String × String) :=
  match andThen init (fun r => r.1.Flags r.2) with
  | .ok g => setCalls g.1 false args
  | .error _ => []

/-- The values an argument list supplies for the flag `name`, in order. An
argument list supplies the flag once with `v` when this is `[v]`. -/
def suppliedValues (name : String) (args : List String) : List String :=
  ((suppliedFlags args).filter (fun c => c.1 == name)).map (fun c => c.2)

/-- The arguments that are left for the command found under `word`: the
argument list without the first positional occurrence of `word`, as
`Find` computes it on the root command after `init`. -/
def argsAfterWord (word : String) (args : List String) : List String :=
  match init with
  | .ok r => argsMinusFirstX r.1.pflags word args
  | .error _ => args

/-- The flags an argument list supplies to the generated `help` command,
with their values, in order: `setCalls` on the flag set that command parses
with. -/
def helpSuppliedFlags (a : List String) : List (String × String) :=
  match andThen init (fun r => helpCommandFlags r.1 r.2) with
  | .ok g => setCalls g.1 false a
  | .error _ => []

/-- The flag set the generated `help` command parses with, written out. -/
def helpFlags : FlagSet := { formal := persistentFlags.formal ++ [helpFlag "help"] }

/-- Subcommand declarations with the names of the spec and no aliases, in
which `status` succeeds and every other subcommand reports an error. -/
def onlyStatusSucceeds : Subcommands :=
  { Name := specName, Aliases := fun _ => [],
    execute := fun x _ => decide (x ≠ CmdVar.statusCmd), completion := fun _ => false }

/-! ## Basic facts about `init` and the flag sets -/

theorem init_eq : init = .ok (initCmd, initStore) := rfl

theorem initFlags_eq : initFlags = .ok (persistentFlags, initStore) := rfl

theorem flags_eq : initCmd.Flags initStore = .ok (rootFlags, initStore) := rfl

theorem helpCommandFlags_eq :
    helpCommandFlags initCmd initStore
      = .ok ({ formal := persistentFlags.formal ++ [helpFlag "help"] }, initStore) := rfl

theorem parseFlags_eq (a : List String) :
    initCmd.ParseFlags initStore a = .ok (rootFlags.Parse initStore a) := rfl

theorem execute_ok (a : List String) : ∃ r, initCmd.execute initStore a = .ok r := by
  unfold Command.execute
  rw [parseFlags_eq]
  simp only [andThen]
  split
  · exact ⟨_, rfl⟩
  · exact ⟨_, rfl⟩
  · split
    · exact ⟨_, rfl⟩
    · split <;> exact ⟨_, rfl⟩

theorem executeHelpCommand_ok (a : List String) :
    ∃ r, executeHelpCommand initCmd initStore a = .ok r := by
  unfold executeHelpCommand
  rw [helpCommandFlags_eq]
  simp only [andThen]
  split
  · exact ⟨_, rfl⟩
  · exact ⟨_, rfl⟩
  · split <;> exact ⟨_, rfl⟩

theorem executeC_ok (d : Subcommands) (args : List String) :
    ∃ r, initCmd.ExecuteC d initStore args = .ok r := by
  unfold Command.ExecuteC
  split
  · exact execute_ok args
  · split
    · exact ⟨_, rfl⟩
    · exact executeHelpCommand_ok _
    · exact ⟨_, rfl⟩
    · exact ⟨_, rfl⟩
    · exact ⟨_, rfl⟩

theorem execute_eq (d : Subcommands) (args : List String) :
    Execute d args = initCmd.ExecuteC d initStore args := rfl

theorem rootParse_eq (args : List String) :
    rootParse args = initCmd.ParseFlags initStore args := rfl

theorem commandWords_eq (args : List String) :
    commandWords args = stripFlags initCmd.pflags args := rfl

/-! ## C3: the exit status of `main` -/

/-- C3: `rootCmd.Execute()` always returns (no panic is reached in `init` or
in command execution), `main` exits with status 1 exactly when the returned
error is non-nil, with status 0 exactly when it is nil, and with no other
status. -/
theorem main_exit_status (d : Subcommands) (args : List String) :
    ∃ r, Execute d args = .ok r
      ∧ (main d args = 1 ↔ r.err = true)
      ∧ (main d args = 0 ↔ r.err = false)
      ∧ (main d args = 0 ∨ main d args = 1) := by
  obtain ⟨r, hr⟩ := executeC_ok d args
  refine ⟨r, by rw [execute_eq, hr], ?_, ?_, ?_⟩ <;>
    simp only [main, execute_eq, hr] <;> cases r.err <;> simp

/-! ## C7: the registered subcommands -/

theorem children_congr (d d' : Subcommands) (c : Command)
    (hname : d'.Name = d.Name) (halias : d'.Aliases = d.Aliases) :
    children d' c = children d c := by
  unfold children
  rw [hname, halias]

theorem findNext_congr (d d' : Subcommands) (cmds : List Child) (word : String)
    (hname : d'.Name = d.Name) (halias : d'.Aliases = d.Aliases) :
    findNext d' cmds word = findNext d cmds word := by
  unfold findNext
  congr 1
  funext ch
  cases ch <;> simp [Child.Name, Child.Aliases, hname, halias]

/-- C7: after `init` the root command has exactly the seven commands
`connectCmd`, `queryCmd`, `schemaCmd`, `backupCmd`, `restoreCmd`,
`statusCmd`, `configCmd` as registered children, each of the seven command
variables exactly once. A single invocation runs at most one of them: when
`ExecuteC` runs the subcommand `x` on the arguments `a`, then `x` is the
first child, in registration order, whose name or alias is the first command
word, `a` is the argument list without that word, and the returned error is
the one `x` reports on `a`; and the result of the invocation is the same for
any other declarations `d'` of the subcommands with the same names and
aliases that agree with `d` on that one run, whatever the other six
subcommands would do. -/
theorem seven_subcommands_registered (d d' : Subcommands) (args : List String)
    (hname : d'.Name = d.Name) (halias : d'.Aliases = d.Aliases)
    (hcompletion : d'.completion = d.completion)
    (hsame : ∀ x a, Execute d args = .ok { action := .runChild x a, err := d.execute x a } →
      d'.execute x a = d.execute x a) :
    ∃ c s, init = .ok (c, s)
      ∧ c.commands = [.connectCmd, .queryCmd, .schemaCmd, .backupCmd, .restoreCmd,
                      .statusCmd, .configCmd]
      ∧ c.commands.length = 7
      ∧ c.commands.Nodup
      ∧ (∀ x : CmdVar, c.commands.count x = 1)
      ∧ Execute d' args = Execute d args
      ∧ (∀ r x a, Execute d args = .ok r → r.action = .runChild x a →
          ∃ word rest before after,
            commandWords args = word :: rest
            ∧ a = argsAfterWord word args
            ∧ r.err = d.execute x a
            ∧ children d c = before ++ Child.registered x :: after
            ∧ (d.Name x = word ∨ word ∈ d.Aliases x)
            ∧ ∀ ch ∈ before, Child.Name d ch ≠ word ∧ word ∉ Child.Aliases d ch) := by
  refine ⟨initCmd, initStore, rfl, rfl, rfl, by decide, by intro x; cases x <;> decide,
    ?_, ?_⟩
  · rw [execute_eq, execute_eq] at *
    unfold Command.ExecuteC at hsame ⊢
    rw [children_congr d d' initCmd hname halias]
    cases hw : stripFlags initCmd.pflags args with
    | nil => rfl
    | cons word rest =>
      simp only [hw] at hsame ⊢
      rw [findNext_congr d d' _ word hname halias]
      cases hf : findNext d (children d initCmd) word with
      | none => rfl
      | some ch =>
        simp only [hf] at hsame ⊢
        cases ch with
        | registered x =>
          simp only at hsame ⊢
          rw [hsame x _ rfl]
        | helpCmd => rfl
        | completionCmd => simp only; rw [hcompletion]
        | completeCmd => rfl
  · intro r x a hr ha
    rw [execute_eq] at hr
    unfold Command.ExecuteC at hr
    rw [commandWords_eq]
    cases hw : stripFlags initCmd.pflags args with
    | nil =>
      simp only [hw] at hr
      unfold Command.execute at hr
      rw [parseFlags_eq] at hr
      simp only [andThen] at hr
      split at hr
      · cases hr; cases ha
      · cases hr; cases ha
      · split at hr
        · cases hr; cases ha
        · split at hr <;> (cases hr; cases ha)
    | cons word rest =>
      simp only [hw] at hr
      cases hf : findNext d (children d initCmd) word with
      | none => simp only [hf] at hr; cases hr; cases ha
      | some ch =>
        simp only [hf] at hr
        cases ch with
        | registered y =>
          simp only at hr
          cases hr
          simp only at ha
          cases ha
          unfold findNext at hf
          obtain ⟨hp, before, after, hsplit, hbefore⟩ := List.find?_eq_some.mp hf
          refine ⟨word, rest, before, after, rfl, rfl, rfl, hsplit, ?_, ?_⟩
          · simpa [Child.Name, Child.Aliases] using hp
          · intro ch hch
            have := hbefore ch hch
            simpa [not_or] using this
        | helpCmd =>
          simp only at hr
          unfold executeHelpCommand at hr
          rw [helpCommandFlags_eq] at hr
          simp only [andThen] at hr
          split at hr
          · cases hr; cases ha
          · cases hr; cases ha
          · split at hr <;> (cases hr; cases ha)
        | completionCmd => simp only at hr; cases hr; cases ha
        | completeCmd =>
          simp only at hr
          unfold executeComplete at hr
          split at hr <;> (cases hr; cases ha)

/-- Witness for C7 on `status -v`: the declarations `onlyStatusSucceeds`
differ from the spec-named ones on every subcommand but `status`, and the
invocation gives the same result for both. -/
theorem seven_subcommands_registered_witness :
    onlyStatusSucceeds.Name = (specSubcommands false).Name
    ∧ onlyStatusSucceeds.Aliases = (specSubcommands false).Aliases
    ∧ onlyStatusSucceeds.completion = (specSubcommands false).completion
    ∧ onlyStatusSucceeds.execute .connectCmd [] ≠ (specSubcommands false).execute .connectCmd []
    ∧ Execute (specSubcommands false) ["status", "-v"]
        = .ok { action := .runChild .statusCmd ["-v"], err := false }
    ∧ ∃ c s, init = .ok (c, s)
      ∧ c.commands = [.connectCmd, .queryCmd, .schemaCmd, .backupCmd, .restoreCmd,
                      .statusCmd, .configCmd]
      ∧ c.commands.length = 7
      ∧ c.commands.Nodup
      ∧ (∀ x : CmdVar, c.commands.count x = 1)
      ∧ Execute onlyStatusSucceeds ["status", "-v"]
          = Execute (specSubcommands false) ["status", "-v"]
      ∧ (∀ r x a, Execute (specSubcommands false) ["status", "-v"] = .ok r →
          r.action = .runChild x a →
          ∃ word rest before after,
            commandWords ["status", "-v"] = word :: rest
            ∧ a = argsAfterWord word ["status", "-v"]
            ∧ r.err = (specSubcommands false).execute x a
            ∧ children (specSubcommands false) c = before ++ Child.registered x :: after
            ∧ ((specSubcommands false).Name x = word
                ∨ word ∈ (specSubcommands false).Aliases x)
            ∧ ∀ ch ∈ before, Child.Name (specSubcommands false) ch ≠ word
                ∧ word ∉ Child.Aliases (specSubcommands false) ch) :=
  ⟨rfl, rfl, rfl, by decide, rfl,
   seven_subcommands_registered (specSubcommands false) onlyStatusSucceeds ["status", "-v"]
     rfl rfl rfl (fun x a h => by
       have h0 : Execute (specSubcommands false) ["status", "-v"]
           = .ok { action := .runChild .statusCmd ["-v"], err := false } := rfl
       rw [h0] at h
       injection h with h
       injection h with h1 h2
       injection h1 with hx ha
       subst hx
       rfl)⟩

/-! ## C8: no two flags collide -/

/-- C8: the seven persistent flags have pairwise distinct long names and
pairwise distinct shorthands of one character each, none of which is `h`;
registration in `init` does not panic, adding the default `help` (`-h`) and
`version` flags at execution time does not panic either, and every long name
and every shorthand character belongs to at most one flag of the set that is
parsed. -/
theorem flags_do_not_collide :
    (∃ f s, initFlags = .ok (f, s)
        ∧ (f.formal.map (fun fl => fl.Name)).Nodup
        ∧ (f.formal.map (fun fl => fl.Shorthand)).Nodup
        ∧ (∀ fl ∈ f.formal, fl.Shorthand.length = 1 ∧ fl.Shorthand ≠ "h")
        ∧ f.formal.map (fun fl => fl.Shorthand) = ["v", "c", "H", "p", "d", "U", "W"])
    ∧ (∃ c s g, init = .ok (c, s) ∧ c.Flags s = .ok g
        ∧ (∀ name : String, (g.1.formal.map (fun fl => fl.Name)).count name ≤ 1)
        ∧ (∀ ch : Char, (g.1.formal.map (fun fl => fl.Shorthand)).count (String.mk [ch]) ≤ 1)) := by
  refine ⟨⟨persistentFlags, initStore, rfl, by decide, by decide, by decide, rfl⟩, ?_⟩
  refine ⟨initCmd, initStore, (rootFlags, initStore), rfl, rfl, ?_, ?_⟩
  · intro name
    have h : (rootFlags.formal.map (fun fl => fl.Name)).Nodup := by decide
    exact List.nodup_iff_count_le_one.mp h name
  · intro ch
    have h : (rootFlags.formal.map (fun fl => fl.Shorthand)).Nodup := by decide
    exact List.nodup_iff_count_le_one.mp h (String.mk [ch])

/-! ## The flag parser: positional tokens and invariants -/

theorem parseArgs_positional (f : FlagSet) :
    ∀ (args : List String) (st : ParseState), (∀ a ∈ args, positional a) →
      parseArgs f false args st = ({ st with args := st.args ++ args }, none) := by
  intro args
  induction args with
  | nil => intro st _; simp [parseArgs]
  | cons s rest ih =>
    intro st h
    have hs : positional s := h s (List.mem_cons_self _ _)
    have hr : ∀ a ∈ rest, positional a := fun a ha => h a (List.mem_cons_of_mem _ ha)
    have step : parseArgs f false (s :: rest) st
        = parseArgs f false rest { st with args := st.args ++ [s] } := by
      unfold positional startsWithDash at hs
      rw [parseArgs]
      split
      · rename_i c0 c1 cs hd
        have : c0 ≠ '-' := by
          intro hc
          rw [hd, hc] at hs
          simp at hs
        simp [this]
      · rfl
    rw [step, ih _ hr]
    simp

theorem parseLongArg_inv (P : ParseState → Prop) (f : FlagSet)
    (hset : ∀ st n v, P st → (f.Set st n v).2 = none → P (f.Set st n v).1)
    (st : ParseState) (name : List Char) (a : List String) (h : P st)
    (he : (parseLongArg f st name a).2.1 = none) : P (parseLongArg f st name a).1 := by
  cases name with
  | nil => simp [parseLongArg] at he
  | cons c rest =>
    simp only [parseLongArg] at he ⊢
    by_cases hc : c = '-' ∨ c = '='
    · simp [hc] at he
    · simp only [hc, if_false] at he ⊢
      cases hl : f.Lookup (String.mk (splitAtEq (c :: rest)).1) with
      | none =>
        simp only [hl] at he
        split at he <;> simp at he
      | some flag =>
        simp only [hl] at he ⊢
        cases hv : (splitAtEq (c :: rest)).2 with
        | some v =>
          simp only [hv] at he ⊢
          exact hset _ _ _ h he
        | none =>
          simp only [hv] at he ⊢
          by_cases hn : flag.NoOptDefVal ≠ ""
          · rw [if_pos hn] at he ⊢
            exact hset _ _ _ h he
          · rw [if_neg hn] at he ⊢
            cases a with
            | nil => simp at he
            | cons v t => exact hset _ _ _ h he

theorem parseShortArg_inv (P : ParseState → Prop) (f : FlagSet)
    (hset : ∀ st n v, P st → (f.Set st n v).2 = none → P (f.Set st n v).1)
    (a : List String) :
    ∀ (cs : List Char) (st : ParseState), P st →
      (parseShortArg f a cs st).2.1 = none → P (parseShortArg f a cs st).1 := by
  intro cs
  induction cs with
  | nil => intro st h _; simpa [parseShortArg] using h
  | cons c cs ih =>
    intro st h he
    simp only [parseShortArg] at he ⊢
    by_cases ht : "test.".data.isPrefixOf (c :: cs) = true
    · rw [if_pos ht] at he ⊢; exact h
    · rw [if_neg ht] at he ⊢
      cases hl : f.ShorthandLookup c with
      | none =>
        simp only [hl] at he
        split at he <;> simp at he
      | some flag =>
        simp only [hl] at he ⊢
        cases h1 : attachedValue cs with
        | some v => simp only [h1] at he ⊢; exact hset _ _ _ h he
        | none =>
          simp only [h1] at he ⊢
          by_cases hn : flag.NoOptDefVal ≠ ""
          · rw [if_pos hn] at he ⊢
            cases hs : (f.Set st flag.Name flag.NoOptDefVal).2 with
            | some e => simp [hs] at he
            | none =>
              simp only [hs] at he ⊢
              exact ih _ (hset _ _ _ h hs) he
          · rw [if_neg hn] at he ⊢
            by_cases h3 : cs ≠ []
            · rw [if_pos h3] at he ⊢; exact hset _ _ _ h he
            · rw [if_neg h3] at he ⊢
              cases a with
              | nil => simp at he
              | cons v t => exact hset _ _ _ h he

theorem parseArgs_inv (P : ParseState → Prop) (f : FlagSet)
    (hset : ∀ st n v, P st → (f.Set st n v).2 = none → P (f.Set st n v).1)
    (hargs : ∀ (st : ParseState) (l : List String), P st → P { st with args := l }) :
    ∀ (args : List String) (skip : Bool) (st : ParseState), P st →
      (parseArgs f skip args st).2 = none → P (parseArgs f skip args st).1 := by
  intro args
  induction args with
  | nil => intro skip st h _; cases skip <;> simpa [parseArgs] using h
  | cons s rest ih =>
    intro skip st h
    cases skip with
    | true => rw [parseArgs]; exact ih _ _ h
    | false =>
      rw [parseArgs]
      split
      · rename_i c0 c1 cs hd
        by_cases h0 : c0 = '-'
        · rw [if_pos h0]
          by_cases h1 : c1 = '-'
          · rw [if_pos h1]
            by_cases h2 : cs = []
            · rw [if_pos h2]; intro _; exact hargs _ _ h
            · rw [if_neg h2]
              cases hl : (parseLongArg f st cs rest).2.1 with
              | some e => simp
              | none =>
                simp only
                exact ih _ _ (parseLongArg_inv P f hset st cs rest h hl)
          · rw [if_neg h1]
            cases hl : (parseShortArg f rest (c1 :: cs) st).2.1 with
            | some e => simp
            | none =>
              simp only
              exact ih _ _ (parseShortArg_inv P f hset rest (c1 :: cs) st h hl)
        · rw [if_neg h0]; exact ih _ _ (hargs _ _ h)
      · exact ih _ _ (hargs _ _ h)

theorem lookup_rootFlags (name : String) (flag : Flag) (h : rootFlags.Lookup name = some flag) :
    flag ∈ rootFlags.formal ∧ flag.Name = name := by
  unfold FlagSet.Lookup at h
  refine ⟨List.mem_of_find?_eq_some h, ?_⟩
  have := List.find?_some h
  simpa using this

theorem not_mem_mark (m n : String) (ch : List String)
    (h : m ∉ (if n ∈ ch then ch else ch ++ [n])) : m ∉ ch ∧ m ≠ n := by
  by_cases hn : n ∈ ch
  · rw [if_pos hn] at h
    exact ⟨h, fun e => h (e ▸ hn)⟩
  · rw [if_neg hn] at h
    simp only [List.mem_append, List.mem_singleton, not_or] at h
    exact h

theorem set_unchangedAtDefault (st : ParseState) (n v : String)
    (h : unchangedAtDefault st) (he : (rootFlags.Set st n v).2 = none) :
    unchangedAtDefault (rootFlags.Set st n v).1 := by
  unfold FlagSet.Set at he ⊢
  cases hl : rootFlags.Lookup n with
  | none => simp [hl] at he
  | some flag =>
    obtain ⟨hmem, hn⟩ := lookup_rootFlags n flag hl
    simp only [hl] at he ⊢
    by_cases hr : (flag.Value.Set st.store v).2 = true
    · rw [if_pos hr]
      subst hn
      simp only [rootFlags, persistentFlags, helpFlag, versionFlag, List.cons_append,
        List.nil_append, List.mem_cons, List.mem_singleton, List.not_mem_nil, or_false] at hmem
      unfold unchangedAtDefault at h ⊢
      obtain ⟨h1, h2, h3, h4, h5, h6, h7⟩ := h
      rcases hmem with rfl | rfl | rfl | rfl | rfl | rfl | rfl | rfl | rfl <;>
        (refine ⟨?_, ?_, ?_, ?_, ?_, ?_, ?_⟩ <;> intro hc <;>
         obtain ⟨hc, hne⟩ := not_mem_mark _ _ _ hc <;>
         first
         | exact absurd rfl hne
         | (simp only [Value.Set, Store.setString, Store.setInt]
            first | exact h1 hc | exact h2 hc | exact h3 hc | exact h4 hc | exact h5 hc
                  | exact h6 hc | exact h7 hc)
         | (simp only [Value.Set]
            cases ParseBool v <;> simp only [Store.setBool] <;>
            first | exact h1 hc | exact h2 hc | exact h3 hc | exact h4 hc | exact h5 hc
                  | exact h6 hc | exact h7 hc))
    · rw [if_neg hr] at he
      simp at he

/-! ## C1: parsing without flags keeps the defaults -/

/-- C1: `init` leaves the seven variables at verbose = false, config = "",
host = "localhost", port = 5432, database = "", user = "", password = "";
parsing an argument list without any flag token succeeds and leaves them
there; and more generally, whenever a parse succeeds and has marked none of
the seven persistent flags as changed, the configuration is the default
one. -/
theorem parse_without_flags_keeps_defaults (args : List String) :
    (∃ c, init = .ok (c, { cfg := { verbose := false, config := "", host := "localhost",
                                    port := 5432, database := "", user := "",
                                    password := "" },
                           help := false, version := false }))
    ∧ ((∀ a ∈ args, positional a) →
        rootParse args
          = .ok ({ store := initStore, changed := [], args := args }, none))
    ∧ (∀ st : ParseState, rootParse args = .ok (st, none) →
        (∀ fl ∈ persistentFlags.formal, fl.Name ∉ st.changed) →
        st.store.cfg = defaultConfig) := by
  refine ⟨⟨initCmd, rfl⟩, ?_, ?_⟩
  · intro h
    rw [rootParse_eq, parseFlags_eq, FlagSet.Parse, parseArgs_positional rootFlags args _ h]
    simp
  · intro st hst hch
    rw [rootParse_eq, parseFlags_eq] at hst
    have hres : rootFlags.Parse initStore args = (st, none) := by
      injection hst
    have h0 : unchangedAtDefault { store := initStore, changed := [], args := [] } := by
      unfold unchangedAtDefault
      simp [initStore]
    have hinv := parseArgs_inv unchangedAtDefault rootFlags set_unchangedAtDefault
      (fun _ _ h => h) args false _ h0 (by
        show (rootFlags.Parse initStore args).2 = none
        rw [hres])
    have hinv2 : unchangedAtDefault st := by
      have : (rootFlags.Parse initStore args).1 = st := by rw [hres]
      rw [← this]; exact hinv
    obtain ⟨h1, h2, h3, h4, h5, h6, h7⟩ := hinv2
    have hn : ∀ n ∈ persistentFlags.formal.map (fun fl => fl.Name), n ∉ st.changed := by
      intro n hn
      obtain ⟨fl, hfl, rfl⟩ := List.mem_map.mp hn
      exact hch fl hfl
    have e1 := h1 (hn "verbose" (by decide))
    have e2 := h2 (hn "config" (by decide))
    have e3 := h3 (hn "host" (by decide))
    have e4 := h4 (hn "port" (by decide))
    have e5 := h5 (hn "database" (by decide))
    have e6 := h6 (hn "user" (by decide))
    have e7 := h7 (hn "password" (by decide))
    cases st with
    | mk store changed a =>
      cases store with
      | mk cfg hp vr =>
        cases cfg
        simp only at e1 e2 e3 e4 e5 e6 e7
        simp only [e1, e2, e3, e4, e5, e6, e7]

/-- Witness for C1 on the argument lists `status now` (no flag token) and
`--help x` (a flag, but none of the seven). -/
theorem parse_without_flags_keeps_defaults_witness :
    (∀ a ∈ ["status", "now"], positional a)
    ∧ rootParse ["status", "now"]
        = .ok ({ store := initStore, changed := [], args := ["status", "now"] }, none)
    ∧ ({ store := { initStore with help := true }, changed := ["help"], args := ["x"] }
        : ParseState).store.cfg = defaultConfig :=
  ⟨by decide,
   (parse_without_flags_keeps_defaults ["status", "now"]).2.1 (by decide),
   (parse_without_flags_keeps_defaults ["--help", "x"]).2.2
     { store := { initStore with help := true }, changed := ["help"], args := ["x"] }
     rfl (by decide)⟩

/-! ## Decimal text of an integer is read back by `ParseInt` -/

theorem digitChar_toNat (d : Nat) (h : d < 10) : (Char.ofNat (48 + d)).toNat = 48 + d := by
  interval_cases d <;> rfl

theorem digitChar_ne_underscore (d : Nat) (h : d < 10) : Char.ofNat (48 + d) ≠ '_' := by
  interval_cases d <;> decide

theorem digitOf_digitChar (d : Nat) (h : d < 10) : digitOf (Char.ofNat (48 + d)) = some d := by
  interval_cases d <;> rfl

theorem uintLoop_digit (d : Nat) (h : d < 10) (cs : List Char) (n : Nat) (us : Bool)
    (hb : n * 10 + d ≤ maxUint64) :
    uintLoop 10 (Char.ofNat (48 + d) :: cs) n us = uintLoop 10 cs (n * 10 + d) us := by
  rw [uintLoop, if_neg (digitChar_ne_underscore d h), digitOf_digitChar d h]
  have h1 : ¬ (10 ≤ d) := by omega
  have h2 : ¬ (maxUint64 / 10 + 1 ≤ n) := by
    unfold maxUint64 at hb ⊢
    omega
  have h3 : ¬ (maxUint64 < n * 10 + d) := by omega
  simp only [h1, h2, h3, if_false]

theorem uintLoop_decimalDigitsAux :
    ∀ (fuel n : Nat) (acc : List Char) (us : Bool), n < fuel → n ≤ maxUint64 →
      uintLoop 10 (decimalDigitsAux fuel n acc) 0 us = uintLoop 10 acc n us := by
  intro fuel
  induction fuel with
  | zero => intro n acc us h; omega
  | succ fuel ih =>
    intro n acc us h hb
    rw [decimalDigitsAux]
    by_cases hn : n < 10
    · rw [if_pos hn, uintLoop_digit n hn acc 0 us (by omega)]
      simp
    · rw [if_neg hn, ih (n / 10) _ us (by omega) (by omega),
        uintLoop_digit (n % 10) (by omega) acc (n / 10) us (by omega)]
      congr 1
      omega

theorem uintLoop_decimalDigits (n : Nat) (hb : n ≤ maxUint64) :
    uintLoop 10 (decimalDigits n) 0 false = (n, false, none) := by
  unfold decimalDigits
  rw [uintLoop_decimalDigitsAux (n + 1) n [] false (by omega) hb]
  rfl


theorem decimalDigitsAux_head :
    ∀ (fuel n : Nat) (acc : List Char), n < fuel →
      ∃ d rest, d < 10 ∧ (0 < n → 1 ≤ d) ∧
        decimalDigitsAux fuel n acc = Char.ofNat (48 + d) :: rest := by
  intro fuel
  induction fuel with
  | zero => intro n acc h; omega
  | succ fuel ih =>
    intro n acc h
    rw [decimalDigitsAux]
    by_cases hn : n < 10
    · rw [if_pos hn]
      exact ⟨n, acc, hn, fun h0 => h0, rfl⟩
    · rw [if_neg hn]
      obtain ⟨d, rest, hd, hpos, he⟩ := ih (n / 10) (Char.ofNat (48 + n % 10) :: acc) (by omega)
      exact ⟨d, rest, hd, fun _ => hpos (by omega), he⟩

theorem digitChar_facts (d : Nat) (h : d < 10) :
    Char.ofNat (48 + d) ≠ '+' ∧ Char.ofNat (48 + d) ≠ '-'
      ∧ (1 ≤ d → Char.ofNat (48 + d) ≠ '0') := by
  interval_cases d <;> decide

theorem ParseUint_decimalDigits (n : Nat) (hb : n ≤ maxUint64) :
    ParseUint (decimalDigits n) = (n, none) := by
  by_cases h0 : n = 0
  · subst h0; rfl
  · obtain ⟨d, rest, hd, hpos, he⟩ := decimalDigitsAux_head (n + 1) n [] (by omega)
    have hloop := uintLoop_decimalDigits n hb
    change decimalDigits n = _ at he
    rw [he] at hloop ⊢
    have hne : Char.ofNat (48 + d) ≠ '0' := (digitChar_facts d hd).2.2 (hpos (by omega))
    simp only [ParseUint, if_neg hne, hloop]
    simp

theorem ParseInt_Itoa (v : Int) (hlo : -(2 ^ 63) ≤ v) (hhi : v < 2 ^ 63) :
    ParseInt (Itoa v) = (v, none) := by
  cases v with
  | ofNat n =>
    have hn : n < 2 ^ 63 := by
      simp only [Int.ofNat_eq_coe] at hhi
      omega
    obtain ⟨d, rest, hd, _, he⟩ := decimalDigitsAux_head (n + 1) n [] (by omega)
    change decimalDigits n = _ at he
    have hu := ParseUint_decimalDigits n (by unfold maxUint64; omega)
    rw [he] at hu
    obtain ⟨hp, hm, _⟩ := digitChar_facts d hd
    have hneg : (Char.ofNat (48 + d) == '-') = false := by simpa using hm
    simp only [ParseInt, Itoa, he, hneg, hp, hm, or_self, if_false, hu]
    have : ¬ (2 ^ 63 ≤ n) := by omega
    simp only [this, and_false, false_and, if_false]
    simp
  | negSucc n =>
    have hn : n + 1 ≤ 2 ^ 63 := by
      have : -(2 ^ 63 : Int) ≤ -((n : Int) + 1) := by simpa [Int.negSucc_eq] using hlo
      omega
    have hu := ParseUint_decimalDigits (n + 1) (by unfold maxUint64; omega)
    have : ¬ (2 ^ 63 < n + 1) := by omega
    simp only [ParseInt, Itoa]
    simp [hu, this, Int.negSucc_eq]
    omega


/-! ## Positional arguments in front of a flag -/

theorem parseArgs_append_positional (f : FlagSet) :
    ∀ (pre : List String) (st : ParseState) (rest : List String), (∀ a ∈ pre, positional a) →
      parseArgs f false (pre ++ rest) st
        = parseArgs f false rest { st with args := st.args ++ pre } := by
  intro pre
  induction pre with
  | nil => intro st rest _; simp
  | cons s t ih =>
    intro st rest h
    have hs : positional s := h s (List.mem_cons_self _ _)
    have ht : ∀ a ∈ t, positional a := fun a ha => h a (List.mem_cons_of_mem _ ha)
    have step : parseArgs f false (s :: (t ++ rest)) st
        = parseArgs f false (t ++ rest) { st with args := st.args ++ [s] } := by
      unfold positional startsWithDash at hs
      rw [parseArgs]
      split
      · rename_i c0 c1 cs hd
        have : c0 ≠ '-' := by
          intro hc
          rw [hd, hc] at hs
          simp at hs
        simp [this]
      · rfl
    rw [List.cons_append, step, ih _ _ ht]
    simp


/-! ## The parse applies the supplied flags in order -/

theorem Value.set_accepts (v : Value) (s : Store) (w : String) :
    (v.Set s w).2 = v.accepts w := by
  cases v with
  | boolValue p => simp only [Value.Set, Value.accepts]; cases ParseBool w <;> rfl
  | stringValue p => rfl
  | intValue p => rfl

theorem set_ok (f : FlagSet) (st : ParseState) (n w : String)
    (h : (f.Set st n w).2 = none) :
    f.accepts n w = true ∧ (f.Set st n w).1.store = applyCall f st.store (n, w) := by
  unfold FlagSet.Set at h ⊢
  unfold FlagSet.accepts applyCall
  cases hl : f.Lookup n with
  | none => simp [hl] at h
  | some flag =>
    simp only [hl] at h ⊢
    by_cases hr : (flag.Value.Set st.store w).2 = true
    · rw [if_pos hr]
      exact ⟨by rw [← Value.set_accepts flag.Value st.store w]; exact hr, rfl⟩
    · rw [if_neg hr] at h
      simp at h

theorem parseLongArg_call (f : FlagSet) (st : ParseState) (name : List Char) (a : List String)
    (he : (parseLongArg f st name a).2.1 = none) :
    ∃ n w, longCall f name a = some (n, w, (parseLongArg f st name a).2.2)
      ∧ f.accepts n w = true
      ∧ (parseLongArg f st name a).1.store = applyCall f st.store (n, w) := by
  cases name with
  | nil => simp [parseLongArg] at he
  | cons c rest =>
    simp only [parseLongArg, longCall] at he ⊢
    by_cases hc : c = '-' ∨ c = '='
    · simp [hc] at he
    · simp only [hc, if_false] at he ⊢
      cases hl : f.Lookup (String.mk (splitAtEq (c :: rest)).1) with
      | none =>
        simp only [hl] at he
        split at he <;> simp at he
      | some flag =>
        simp only [hl] at he ⊢
        cases hv : (splitAtEq (c :: rest)).2 with
        | some v =>
          simp only [hv] at he ⊢
          exact ⟨_, _, rfl, set_ok f st _ _ he⟩
        | none =>
          simp only [hv] at he ⊢
          by_cases hn : flag.NoOptDefVal ≠ ""
          · rw [if_pos hn] at he ⊢
            rw [if_pos hn]
            exact ⟨_, _, rfl, set_ok f st _ _ he⟩
          · rw [if_neg hn] at he ⊢
            rw [if_neg hn]
            cases a with
            | nil => simp at he
            | cons v t => exact ⟨_, _, rfl, set_ok f st _ _ he⟩

theorem parseShortArg_calls (f : FlagSet) (a : List String) :
    ∀ (cs : List Char) (st : ParseState), (parseShortArg f a cs st).2.1 = none →
      (shortCalls f a cs).2.1 = true
      ∧ (shortCalls f a cs).2.2 = (parseShortArg f a cs st).2.2
      ∧ (∀ c ∈ (shortCalls f a cs).1, f.accepts c.1 c.2 = true)
      ∧ (parseShortArg f a cs st).1.store
          = (shortCalls f a cs).1.foldl (applyCall f) st.store := by
  intro cs
  induction cs with
  | nil => intro st _; simp [parseShortArg, shortCalls]
  | cons c cs ih =>
    intro st he
    simp only [parseShortArg, shortCalls] at he ⊢
    by_cases ht : "test.".data.isPrefixOf (c :: cs) = true
    · rw [if_pos ht] at he ⊢
      rw [if_pos ht]
      simp
    · rw [if_neg ht] at he ⊢
      rw [if_neg ht]
      cases hl : f.ShorthandLookup c with
      | none =>
        simp only [hl] at he
        split at he <;> simp at he
      | some flag =>
        simp only [hl] at he ⊢
        cases h1 : attachedValue cs with
        | some v =>
          simp only [h1] at he ⊢
          obtain ⟨ha, hs⟩ := set_ok f st _ _ he
          simp [ha, hs]
        | none =>
          simp only [h1] at he ⊢
          by_cases hn : flag.NoOptDefVal ≠ ""
          · rw [if_pos hn] at he ⊢
            rw [if_pos hn]
            cases hs : (f.Set st flag.Name flag.NoOptDefVal).2 with
            | some e => simp [hs] at he
            | none =>
              simp only [hs] at he ⊢
              obtain ⟨ha, hst⟩ := set_ok f st _ _ hs
              obtain ⟨i1, i2, i3, i4⟩ := ih _ he
              refine ⟨i1, i2, ?_, ?_⟩
              · intro c' hc'
                rcases List.mem_cons.mp hc' with rfl | hm
                · exact ha
                · exact i3 c' hm
              · rw [i4, hst]; rfl
          · rw [if_neg hn] at he ⊢
            rw [if_neg hn]
            by_cases h3 : cs ≠ []
            · rw [if_pos h3] at he ⊢
              rw [if_pos h3]
              obtain ⟨ha, hs⟩ := set_ok f st _ _ he
              simp [ha, hs]
            · rw [if_neg h3] at he ⊢
              rw [if_neg h3]
              cases a with
              | nil => simp at he
              | cons v t =>
                simp only at he ⊢
                obtain ⟨ha, hs⟩ := set_ok f st _ _ he
                simp [ha, hs]

theorem parseArgs_calls (f : FlagSet) :
    ∀ (args : List String) (skip : Bool) (st : ParseState),
      (parseArgs f skip args st).2 = none →
      (∀ c ∈ setCalls f skip args, f.accepts c.1 c.2 = true)
      ∧ (parseArgs f skip args st).1.store
          = (setCalls f skip args).foldl (applyCall f) st.store := by
  intro args
  induction args with
  | nil => intro skip st _; cases skip <;> simp [parseArgs, setCalls]
  | cons s rest ih =>
    intro skip st
    cases skip with
    | true => rw [parseArgs, setCalls]; exact ih _ _
    | false =>
      rw [parseArgs, setCalls]
      split
      · rename_i c0 c1 cs hd
        by_cases h0 : c0 = '-'
        · rw [if_pos h0, if_pos h0]
          by_cases h1 : c1 = '-'
          · rw [if_pos h1, if_pos h1]
            by_cases h2 : cs = []
            · rw [if_pos h2, if_pos h2]; intro _; simp
            · rw [if_neg h2, if_neg h2]
              cases hl : (parseLongArg f st cs rest).2.1 with
              | some e => simp
              | none =>
                simp only
                obtain ⟨n, w, hcall, hacc, hstore⟩ := parseLongArg_call f st cs rest hl
                intro he
                obtain ⟨i1, i2⟩ := ih _ _ he
                rw [hcall]
                refine ⟨?_, ?_⟩
                · intro c' hc'
                  rcases List.mem_cons.mp hc' with rfl | hm
                  · exact hacc
                  · exact i1 c' hm
                · rw [i2, hstore]; rfl
          · rw [if_neg h1, if_neg h1]
            cases hl : (parseShortArg f rest (c1 :: cs) st).2.1 with
            | some e => simp
            | none =>
              simp only
              obtain ⟨j1, j2, j3, j4⟩ := parseShortArg_calls f rest (c1 :: cs) st hl
              intro he
              obtain ⟨i1, i2⟩ := ih _ _ he
              rw [if_pos j1, j2]
              refine ⟨?_, ?_⟩
              · intro c' hc'
                rcases List.mem_append.mp hc' with hm | hm
                · exact j3 c' hm
                · exact i1 c' hm
              · rw [i2, j4, List.foldl_append]
        · rw [if_neg h0, if_neg h0]; exact ih _ _
      · exact ih _ _

theorem set_ne_errHelp (f : FlagSet) (st : ParseState) (n w : String) :
    (f.Set st n w).2 ≠ some .errHelp := by
  unfold FlagSet.Set
  cases f.Lookup n with
  | none => simp
  | some flag =>
    simp only
    split <;> simp

theorem parseLongArg_ne_errHelp (f : FlagSet) (hh : ∃ fl, f.Lookup "help" = some fl)
    (st : ParseState) (name : List Char) (a : List String) :
    (parseLongArg f st name a).2.1 ≠ some .errHelp := by
  cases name with
  | nil => simp [parseLongArg]
  | cons c rest =>
    simp only [parseLongArg]
    by_cases hc : c = '-' ∨ c = '='
    · simp [hc]
    · simp only [hc, if_false]
      cases hl : f.Lookup (String.mk (splitAtEq (c :: rest)).1) with
      | none =>
        simp only
        by_cases hn : String.mk (splitAtEq (c :: rest)).1 = "help"
        · rw [hn] at hl
          obtain ⟨fl, hfl⟩ := hh
          rw [hfl] at hl
          cases hl
        · rw [if_neg hn]; simp
      | some flag =>
        simp only
        cases (splitAtEq (c :: rest)).2 with
        | some v => exact set_ne_errHelp f st _ _
        | none =>
          simp only
          by_cases hn : flag.NoOptDefVal ≠ ""
          · rw [if_pos hn]; exact set_ne_errHelp f st _ _
          · rw [if_neg hn]
            cases a with
            | nil => simp
            | cons v t => exact set_ne_errHelp f st _ _

theorem parseShortArg_ne_errHelp (f : FlagSet) (hh : ∃ fl, f.ShorthandLookup 'h' = some fl)
    (a : List String) :
    ∀ (cs : List Char) (st : ParseState), (parseShortArg f a cs st).2.1 ≠ some .errHelp := by
  intro cs
  induction cs with
  | nil => intro st; simp [parseShortArg]
  | cons c cs ih =>
    intro st
    simp only [parseShortArg]
    by_cases ht : "test.".data.isPrefixOf (c :: cs) = true
    · rw [if_pos ht]; simp
    · rw [if_neg ht]
      cases hl : f.ShorthandLookup c with
      | none =>
        simp only
        by_cases hc : c = 'h'
        · rw [hc] at hl
          obtain ⟨fl, hfl⟩ := hh
          rw [hfl] at hl
          cases hl
        · rw [if_neg hc]; simp
      | some flag =>
        simp only
        cases attachedValue cs with
        | some v => exact set_ne_errHelp f st _ _
        | none =>
          simp only
          by_cases hn : flag.NoOptDefVal ≠ ""
          · rw [if_pos hn]
            cases hs : (f.Set st flag.Name flag.NoOptDefVal).2 with
            | some e =>
              simp only
              intro h
              have := set_ne_errHelp f st flag.Name flag.NoOptDefVal
              rw [hs] at this
              exact this h
            | none => exact ih _
          · rw [if_neg hn]
            by_cases h3 : cs ≠ []
            · rw [if_pos h3]; exact set_ne_errHelp f st _ _
            · rw [if_neg h3]
              cases a with
              | nil => simp
              | cons v t => exact set_ne_errHelp f st _ _

theorem parseArgs_ne_errHelp (f : FlagSet) (h1 : ∃ fl, f.Lookup "help" = some fl)
    (h2 : ∃ fl, f.ShorthandLookup 'h' = some fl) :
    ∀ (args : List String) (skip : Bool) (st : ParseState),
      (parseArgs f skip args st).2 ≠ some .errHelp := by
  intro args
  induction args with
  | nil => intro skip st; cases skip <;> simp [parseArgs]
  | cons s rest ih =>
    intro skip st
    cases skip with
    | true => rw [parseArgs]; exact ih _ _
    | false =>
      rw [parseArgs]
      split
      · rename_i c0 c1 cs hd
        by_cases h0 : c0 = '-'
        · rw [if_pos h0]
          by_cases hc1 : c1 = '-'
          · rw [if_pos hc1]
            by_cases hcs : cs = []
            · rw [if_pos hcs]; simp
            · rw [if_neg hcs]
              cases hl : (parseLongArg f st cs rest).2.1 with
              | some e =>
                simp only
                intro h
                have := parseLongArg_ne_errHelp f h1 st cs rest
                rw [hl] at this
                exact this (by simpa using h)
              | none => exact ih _ _
          · rw [if_neg hc1]
            cases hl : (parseShortArg f rest (c1 :: cs) st).2.1 with
            | some e =>
              simp only
              intro h
              have := parseShortArg_ne_errHelp f h2 rest (c1 :: cs) st
              rw [hl] at this
              exact this (by simpa using h)
            | none => exact ih _ _
        · rw [if_neg h0]; exact ih _ _
      · exact ih _ _

theorem suppliedFlags_eq (args : List String) :
    suppliedFlags args = setCalls rootFlags false args := rfl

theorem fold_last {α : Type} (f : FlagSet) (read : Store → α) (nm : String) (dec : String → α)
    (hstep : ∀ s c, read (applyCall f s c) = if c.1 = nm then dec c.2 else read s) :
    ∀ (calls : List (String × String)) (s : Store),
      read (calls.foldl (applyCall f) s)
        = ((((calls.filter (fun c => c.1 == nm)).map (fun c => c.2)).getLast?).map dec).getD
            (read s) := by
  intro calls
  induction calls with
  | nil => intro s; rfl
  | cons c cs ih =>
    intro s
    rw [List.foldl_cons, ih, hstep]
    by_cases hc : c.1 = nm
    · have hb : (c.1 == nm) = true := by simpa using hc
      rw [if_pos hc]
      simp only [List.filter_cons, hb, if_true, List.map_cons]
      cases hcs : (List.map (fun c => c.2) (List.filter (fun c => c.1 == nm) cs)) with
      | nil => simp
      | cons x xs =>
        rw [List.getLast?_cons_cons, List.getLast?_eq_getLast _ (List.cons_ne_nil x xs)]
        rfl
    · have hb : ¬ ((c.1 == nm) = true) := by simpa using hc
      rw [if_neg hc]
      simp only [List.filter_cons, hb, if_false]
      rfl

theorem applyCall_getString (p : StringPtr) (s : Store) (c : String × String) :
    (applyCall rootFlags s c).getString p
      = if c.1 = p.flagName then c.2 else s.getString p := by
  obtain ⟨n, w⟩ := c
  unfold applyCall
  cases hl : rootFlags.Lookup n with
  | none =>
    have hne : n ≠ p.flagName := by
      intro h
      rw [h] at hl
      cases p <;> exact absurd hl (by decide)
    simp [hne]
  | some flag =>
    obtain ⟨hmem, hn⟩ := lookup_rootFlags n flag hl
    subst hn
    simp only [rootFlags, persistentFlags, helpFlag, versionFlag, List.cons_append,
      List.nil_append, List.mem_cons, List.mem_singleton, List.not_mem_nil, or_false] at hmem
    rcases hmem with rfl | rfl | rfl | rfl | rfl | rfl | rfl | rfl | rfl <;>
      cases p <;>
      first
      | rfl
      | (simp only [Value.Set]; cases ParseBool w <;> rfl)

theorem applyCall_port (s : Store) (c : String × String) :
    (applyCall rootFlags s c).cfg.port
      = if c.1 = "port" then (ParseInt c.2).1 else s.cfg.port := by
  obtain ⟨n, w⟩ := c
  unfold applyCall
  cases hl : rootFlags.Lookup n with
  | none =>
    have hne : n ≠ "port" := by
      intro h
      rw [h] at hl
      exact absurd hl (by decide)
    simp [hne]
  | some flag =>
    obtain ⟨hmem, hn⟩ := lookup_rootFlags n flag hl
    subst hn
    simp only [rootFlags, persistentFlags, helpFlag, versionFlag, List.cons_append,
      List.nil_append, List.mem_cons, List.mem_singleton, List.not_mem_nil, or_false] at hmem
    rcases hmem with rfl | rfl | rfl | rfl | rfl | rfl | rfl | rfl | rfl <;>
      first
      | rfl
      | (simp only [Value.Set]; cases ParseBool w <;> rfl)

theorem applyCall_verbose (s : Store) (c : String × String) :
    (applyCall rootFlags s c).cfg.verbose
      = if c.1 = "verbose" then (ParseBool c.2).getD false else s.cfg.verbose := by
  obtain ⟨n, w⟩ := c
  unfold applyCall
  cases hl : rootFlags.Lookup n with
  | none =>
    have hne : n ≠ "verbose" := by
      intro h
      rw [h] at hl
      exact absurd hl (by decide)
    simp [hne]
  | some flag =>
    obtain ⟨hmem, hn⟩ := lookup_rootFlags n flag hl
    subst hn
    simp only [rootFlags, persistentFlags, helpFlag, versionFlag, List.cons_append,
      List.nil_append, List.mem_cons, List.mem_singleton, List.not_mem_nil, or_false] at hmem
    rcases hmem with rfl | rfl | rfl | rfl | rfl | rfl | rfl | rfl | rfl <;>
      first
      | rfl
      | (simp only [Value.Set]; cases ParseBool w <;> rfl)

theorem rootParse_store (args : List String) (st : ParseState)
    (hparse : rootParse args = .ok (st, none)) :
    st.store = (suppliedFlags args).foldl (applyCall rootFlags) initStore := by
  rw [rootParse_eq, parseFlags_eq] at hparse
  have hres : rootFlags.Parse initStore args = (st, none) := by injection hparse
  have h := (parseArgs_calls rootFlags args false
    { store := initStore, changed := [], args := [] } (by
      show (rootFlags.Parse initStore args).2 = none
      rw [hres])).2
  have h1 : (rootFlags.Parse initStore args).1 = st := by rw [hres]
  rw [← h1]
  exact h

theorem string_supplied_once (p : StringPtr) (args : List String) (st : ParseState)
    (hparse : rootParse args = .ok (st, none)) (v : String)
    (h : suppliedValues p.flagName args = [v]) : st.store.getString p = v := by
  rw [rootParse_store args st hparse,
    fold_last rootFlags (fun s => s.getString p) p.flagName id (applyCall_getString p)]
  unfold suppliedValues at h
  rw [h]
  rfl

/-! ## C2: a supplied value overrides the default -/

theorem parse_supplied (tokens : List String) (g : ParseState → ParseState)
    (hstep : ∀ (post : List String) (st : ParseState),
      parseArgs rootFlags false (tokens ++ post) st = parseArgs rootFlags false post (g st))
    (pre post : List String) (hpre : ∀ a ∈ pre, positional a)
    (hpost : ∀ a ∈ post, positional a) :
    initCmd.ParseFlags initStore (pre ++ (tokens ++ post))
      = .ok ({ g { store := initStore, changed := [], args := pre } with
               args := (g { store := initStore, changed := [], args := pre }).args ++ post },
             none) := by
  rw [parseFlags_eq, FlagSet.Parse, parseArgs_append_positional rootFlags pre _ _ hpre, hstep,
    parseArgs_positional rootFlags post _ hpost]
  simp

theorem port_step (v : Int) (hlo : -(2 ^ 63) ≤ v) (hhi : v < 2 ^ 63) (st : ParseState) :
    rootFlags.Set st "port" (Itoa v)
      = ({ st with store := st.store.setInt .port v,
                   changed := if "port" ∈ st.changed then st.changed
                              else st.changed ++ ["port"] }, none) := by
  have h : rootFlags.Set st "port" (Itoa v)
      = if ((ParseInt (Itoa v)).2 == none) = true then
          ({ st with store := st.store.setInt .port (ParseInt (Itoa v)).1,
                     changed := if "port" ∈ st.changed then st.changed
                                else st.changed ++ ["port"] }, none)
        else ({ st with store := st.store.setInt .port (ParseInt (Itoa v)).1 },
              some .invalidArgument) := rfl
  rw [h, ParseInt_Itoa v hlo hhi]
  rfl

/-- Between positional arguments, writing a persistent flag once with a
value `v` of its type, as `--name v` or as `--name=v`, makes the parse
succeed with the corresponding variable equal to `v`, the other six at their
defaults, and exactly that flag marked as changed. -/
theorem supplied_between_positionals (pre post : List String)
    (hpre : ∀ a ∈ pre, positional a) (hpost : ∀ a ∈ post, positional a) :
    (∀ v : String, ∀ args ∈ suppliedLong "config" v pre post,
        rootParse args
          = .ok (parsedOnce { defaultConfig with config := v } "config" (pre ++ post), none))
    ∧ (∀ v : String, ∀ args ∈ suppliedLong "host" v pre post,
        rootParse args
          = .ok (parsedOnce { defaultConfig with host := v } "host" (pre ++ post), none))
    ∧ (∀ v : String, ∀ args ∈ suppliedLong "database" v pre post,
        rootParse args
          = .ok (parsedOnce { defaultConfig with database := v } "database" (pre ++ post), none))
    ∧ (∀ v : String, ∀ args ∈ suppliedLong "user" v pre post,
        rootParse args
          = .ok (parsedOnce { defaultConfig with user := v } "user" (pre ++ post), none))
    ∧ (∀ v : String, ∀ args ∈ suppliedLong "password" v pre post,
        rootParse args
          = .ok (parsedOnce { defaultConfig with password := v } "password" (pre ++ post), none))
    ∧ (∀ v : Int, -(2 ^ 63) ≤ v → v < 2 ^ 63 → ∀ args ∈ suppliedLong "port" (Itoa v) pre post,
        rootParse args
          = .ok (parsedOnce { defaultConfig with port := v } "port" (pre ++ post), none))
    ∧ (∀ args ∈ [pre ++ "--verbose" :: post, pre ++ "--verbose=true" :: post],
        rootParse args
          = .ok (parsedOnce { defaultConfig with verbose := true } "verbose" (pre ++ post),
                 none)) := by
  refine ⟨?_, ?_, ?_, ?_, ?_, ?_, ?_⟩
  · intro v args hargs
    simp only [suppliedLong, List.mem_cons, List.mem_singleton, List.not_mem_nil, or_false]
      at hargs
    rcases hargs with rfl | rfl
    · exact parse_supplied ["--config", v] (fun st => (rootFlags.Set st "config" v).1)
        (fun _ _ => rfl) pre post hpre hpost
    · exact parse_supplied ["--config=" ++ v] (fun st => (rootFlags.Set st "config" v).1)
        (fun _ _ => rfl) pre post hpre hpost
  · intro v args hargs
    simp only [suppliedLong, List.mem_cons, List.mem_singleton, List.not_mem_nil, or_false]
      at hargs
    rcases hargs with rfl | rfl
    · exact parse_supplied ["--host", v] (fun st => (rootFlags.Set st "host" v).1)
        (fun _ _ => rfl) pre post hpre hpost
    · exact parse_supplied ["--host=" ++ v] (fun st => (rootFlags.Set st "host" v).1)
        (fun _ _ => rfl) pre post hpre hpost
  · intro v args hargs
    simp only [suppliedLong, List.mem_cons, List.mem_singleton, List.not_mem_nil, or_false]
      at hargs
    rcases hargs with rfl | rfl
    · exact parse_supplied ["--database", v] (fun st => (rootFlags.Set st "database" v).1)
        (fun _ _ => rfl) pre post hpre hpost
    · exact parse_supplied ["--database=" ++ v] (fun st => (rootFlags.Set st "database" v).1)
        (fun _ _ => rfl) pre post hpre hpost
  · intro v args hargs
    simp only [suppliedLong, List.mem_cons, List.mem_singleton, List.not_mem_nil, or_false]
      at hargs
    rcases hargs with rfl | rfl
    · exact parse_supplied ["--user", v] (fun st => (rootFlags.Set st "user" v).1)
        (fun _ _ => rfl) pre post hpre hpost
    · exact parse_supplied ["--user=" ++ v] (fun st => (rootFlags.Set st "user" v).1)
        (fun _ _ => rfl) pre post hpre hpost
  · intro v args hargs
    simp only [suppliedLong, List.mem_cons, List.mem_singleton, List.not_mem_nil, or_false]
      at hargs
    rcases hargs with rfl | rfl
    · exact parse_supplied ["--password", v] (fun st => (rootFlags.Set st "password" v).1)
        (fun _ _ => rfl) pre post hpre hpost
    · exact parse_supplied ["--password=" ++ v] (fun st => (rootFlags.Set st "password" v).1)
        (fun _ _ => rfl) pre post hpre hpost
  · intro v hlo hhi args hargs
    simp only [suppliedLong, List.mem_cons, List.mem_singleton, List.not_mem_nil, or_false]
      at hargs
    have hs := port_step v hlo hhi
    rcases hargs with rfl | rfl
    · refine parse_supplied ["--port", Itoa v]
        (fun st => { st with store := st.store.setInt .port v,
                             changed := if "port" ∈ st.changed then st.changed
                                        else st.changed ++ ["port"] })
        (fun post st => ?_) pre post hpre hpost
      have h : parseArgs rootFlags false (["--port", Itoa v] ++ post) st
          = match (rootFlags.Set st "port" (Itoa v)).2 with
            | some e => ((rootFlags.Set st "port" (Itoa v)).1, some e)
            | none => parseArgs rootFlags false post (rootFlags.Set st "port" (Itoa v)).1 := rfl
      rw [h, hs st]
    · refine parse_supplied ["--port=" ++ Itoa v]
        (fun st => { st with store := st.store.setInt .port v,
                             changed := if "port" ∈ st.changed then st.changed
                                        else st.changed ++ ["port"] })
        (fun post st => ?_) pre post hpre hpost
      have h : parseArgs rootFlags false (["--port=" ++ Itoa v] ++ post) st
          = match (rootFlags.Set st "port" (Itoa v)).2 with
            | some e => ((rootFlags.Set st "port" (Itoa v)).1, some e)
            | none => parseArgs rootFlags false post (rootFlags.Set st "port" (Itoa v)).1 := rfl
      rw [h, hs st]
  · intro args hargs
    simp only [List.mem_cons, List.mem_singleton, List.not_mem_nil, or_false] at hargs
    rcases hargs with rfl | rfl
    · exact parse_supplied ["--verbose"] (fun st => (rootFlags.Set st "verbose" "true").1)
        (fun _ _ => rfl) pre post hpre hpost
    · exact parse_supplied ["--verbose=true"] (fun st => (rootFlags.Set st "verbose" "true").1)
        (fun _ _ => rfl) pre post hpre hpost


/-- C2: for every argument list that the root command parses without error
and for each of the seven persistent flags: when the list supplies the flag
exactly once, with the value `v` (in any spelling the flag parser reads as
that flag and that value, beside any other flags and positional arguments),
the corresponding variable is exactly `v` after the parse: any string for
config, host, database, user and password; any 64-bit integer, written in
decimal, for port; `true` for verbose. Moreover, between positional
arguments the spellings `--name v` and `--name=v` always parse without
error, leave the other six variables at their defaults and mark exactly
that flag as changed. -/
theorem supplied_value_overrides_default (args : List String) (st : ParseState)
    (hparse : rootParse args = .ok (st, none)) :
    (∀ v : String, suppliedValues "config" args = [v] → st.store.cfg.config = v)
    ∧ (∀ v : String, suppliedValues "host" args = [v] → st.store.cfg.host = v)
    ∧ (∀ v : String, suppliedValues "database" args = [v] → st.store.cfg.database = v)
    ∧ (∀ v : String, suppliedValues "user" args = [v] → st.store.cfg.user = v)
    ∧ (∀ v : String, suppliedValues "password" args = [v] → st.store.cfg.password = v)
    ∧ (∀ v : Int, -(2 ^ 63) ≤ v → v < 2 ^ 63 → suppliedValues "port" args = [Itoa v] →
        st.store.cfg.port = v)
    ∧ (suppliedValues "verbose" args = ["true"] → st.store.cfg.verbose = true)
    ∧ (∀ pre post : List String, (∀ a ∈ pre, positional a) → (∀ a ∈ post, positional a) →
        (∀ v : String, ∀ args ∈ suppliedLong "config" v pre post,
            rootParse args
              = .ok (parsedOnce { defaultConfig with config := v } "config" (pre ++ post), none))
        ∧ (∀ v : String, ∀ args ∈ suppliedLong "host" v pre post,
            rootParse args
              = .ok (parsedOnce { defaultConfig with host := v } "host" (pre ++ post), none))
        ∧ (∀ v : String, ∀ args ∈ suppliedLong "database" v pre post,
            rootParse args
              = .ok (parsedOnce { defaultConfig with database := v } "database" (pre ++ post), none))
        ∧ (∀ v : String, ∀ args ∈ suppliedLong "user" v pre post,
            rootParse args
              = .ok (parsedOnce { defaultConfig with user := v } "user" (pre ++ post), none))
        ∧ (∀ v : String, ∀ args ∈ suppliedLong "password" v pre post,
            rootParse args
              = .ok (parsedOnce { defaultConfig with password := v } "password" (pre ++ post), none))
        ∧ (∀ v : Int, -(2 ^ 63) ≤ v → v < 2 ^ 63 → ∀ args ∈ suppliedLong "port" (Itoa v) pre post,
            rootParse args
              = .ok (parsedOnce { defaultConfig with port := v } "port" (pre ++ post), none))
        ∧ (∀ args ∈ [pre ++ "--verbose" :: post, pre ++ "--verbose=true" :: post],
            rootParse args
              = .ok (parsedOnce { defaultConfig with verbose := true } "verbose" (pre ++ post),
                     none))) := by
  refine ⟨fun v h => string_supplied_once .config args st hparse v h,
    fun v h => string_supplied_once .host args st hparse v h,
    fun v h => string_supplied_once .database args st hparse v h,
    fun v h => string_supplied_once .user args st hparse v h,
    fun v h => string_supplied_once .password args st hparse v h, ?_, ?_,
    fun pre post hpre hpost => supplied_between_positionals pre post hpre hpost⟩
  · intro v hlo hhi h
    rw [rootParse_store args st hparse,
      fold_last rootFlags (fun s => s.cfg.port) "port" (fun w => (ParseInt w).1) applyCall_port]
    unfold suppliedValues at h
    rw [h]
    show (ParseInt (Itoa v)).1 = v
    rw [ParseInt_Itoa v hlo hhi]
  · intro h
    rw [rootParse_store args st hparse,
      fold_last rootFlags (fun s => s.cfg.verbose) "verbose"
        (fun w => (ParseBool w).getD false) applyCall_verbose]
    unfold suppliedValues at h
    rw [h]
    rfl

/-- Witness for C2 on `--host db --port 7`, and on `x --port=8080 y` for the
spellings between positional arguments. -/
theorem supplied_value_overrides_default_witness :
    rootParse ["--host", "db", "--port", "7"]
      = .ok ({ store := { initStore with cfg := { defaultConfig with host := "db", port := 7 } },
               changed := ["host", "port"], args := [] }, none)
    ∧ suppliedValues "host" ["--host", "db", "--port", "7"] = ["db"]
    ∧ (-(2 ^ 63) ≤ (7 : Int) ∧ (7 : Int) < 2 ^ 63)
    ∧ suppliedValues "port" ["--host", "db", "--port", "7"] = [Itoa 7]
    ∧ ({ store := { initStore with cfg := { defaultConfig with host := "db", port := 7 } },
         changed := ["host", "port"], args := [] } : ParseState).store.cfg.host = "db"
    ∧ ({ store := { initStore with cfg := { defaultConfig with host := "db", port := 7 } },
         changed := ["host", "port"], args := [] } : ParseState).store.cfg.port = 7
    ∧ (∀ a ∈ ["x"], positional a) ∧ (∀ a ∈ ["y"], positional a)
    ∧ rootParse ["x", "--port=8080", "y"]
        = .ok (parsedOnce { defaultConfig with port := 8080 } "port" ["x", "y"], none) :=
  ⟨rfl, by decide, ⟨by decide, by decide⟩, by decide,
   (supplied_value_overrides_default ["--host", "db", "--port", "7"]
     { store := { initStore with cfg := { defaultConfig with host := "db", port := 7 } },
       changed := ["host", "port"], args := [] } rfl).2.1 "db" (by decide),
   (supplied_value_overrides_default ["--host", "db", "--port", "7"]
     { store := { initStore with cfg := { defaultConfig with host := "db", port := 7 } },
       changed := ["host", "port"], args := [] } rfl).2.2.2.2.2.1 7 (by decide) (by decide)
     (by decide),
   by decide, by decide,
   ((supplied_value_overrides_default ["--host", "db", "--port", "7"]
     { store := { initStore with cfg := { defaultConfig with host := "db", port := 7 } },
       changed := ["host", "port"], args := [] } rfl).2.2.2.2.2.2.2 ["x"] ["y"]
     (by decide) (by decide)).2.2.2.2.2.1 8080 (by decide) (by decide)
     (["x"] ++ ("--" ++ "port" ++ "=" ++ Itoa 8080) :: ["y"])
     (List.Mem.tail _ (List.Mem.head _))⟩

/-! ## C6: the flag table, and short names against long names -/

theorem short_long_step (short long : List String) (pre post : List String)
    (hpre : ∀ a ∈ pre, positional a)
    (h : ∀ st, parseArgs rootFlags false (short ++ post) st
                = parseArgs rootFlags false (long ++ post) st) :
    initCmd.ParseFlags initStore (pre ++ (short ++ post))
      = initCmd.ParseFlags initStore (pre ++ (long ++ post)) := by
  rw [parseFlags_eq, parseFlags_eq, FlagSet.Parse, FlagSet.Parse,
    parseArgs_append_positional rootFlags pre _ _ hpre,
    parseArgs_append_positional rootFlags pre _ _ hpre, h]

/-- C6: the persistent flags `init` registers are exactly the seven rows of
the documented table (long name, shorthand, type), in that order; and after
positional arguments, writing a flag by its shorthand gives the same parse
result (configuration, changed flags, positional arguments and error) as
writing it by its long name with the same value, both in the two-token form
`-H v` / `--host v` for every value `v` and in the form `-H=v` / `--host=v`
for every non-empty `v`; `-v` agrees with `--verbose`. -/
theorem short_and_long_names_agree (pre post : List String)
    (hpre : ∀ a ∈ pre, positional a) :
    (∃ c s, init = .ok (c, s)
        ∧ c.pflags.formal.map (fun fl => (fl.Name, fl.Shorthand, fl.Value.Type))
            = documentedFlags)
    ∧ rootParse (pre ++ "-v" :: post)
        = rootParse (pre ++ "--verbose" :: post)
    ∧ (∀ v : String,
        rootParse (pre ++ "-c" :: v :: post)
          = rootParse (pre ++ "--config" :: v :: post)
        ∧ rootParse (pre ++ "-H" :: v :: post)
          = rootParse (pre ++ "--host" :: v :: post)
        ∧ rootParse (pre ++ "-p" :: v :: post)
          = rootParse (pre ++ "--port" :: v :: post)
        ∧ rootParse (pre ++ "-d" :: v :: post)
          = rootParse (pre ++ "--database" :: v :: post)
        ∧ rootParse (pre ++ "-U" :: v :: post)
          = rootParse (pre ++ "--user" :: v :: post)
        ∧ rootParse (pre ++ "-W" :: v :: post)
          = rootParse (pre ++ "--password" :: v :: post))
    ∧ (∀ v : String, v ≠ "" →
        rootParse (pre ++ ("-c=" ++ v) :: post)
          = rootParse (pre ++ ("--config=" ++ v) :: post)
        ∧ rootParse (pre ++ ("-H=" ++ v) :: post)
          = rootParse (pre ++ ("--host=" ++ v) :: post)
        ∧ rootParse (pre ++ ("-p=" ++ v) :: post)
          = rootParse (pre ++ ("--port=" ++ v) :: post)
        ∧ rootParse (pre ++ ("-d=" ++ v) :: post)
          = rootParse (pre ++ ("--database=" ++ v) :: post)
        ∧ rootParse (pre ++ ("-U=" ++ v) :: post)
          = rootParse (pre ++ ("--user=" ++ v) :: post)
        ∧ rootParse (pre ++ ("-W=" ++ v) :: post)
          = rootParse (pre ++ ("--password=" ++ v) :: post)) := by
  refine ⟨⟨initCmd, initStore, rfl, rfl⟩, ?_, ?_, ?_⟩
  · exact short_long_step ["-v"] ["--verbose"] pre post hpre (fun _ => rfl)
  · intro v
    exact ⟨short_long_step ["-c", v] ["--config", v] pre post hpre (fun _ => rfl),
      short_long_step ["-H", v] ["--host", v] pre post hpre (fun _ => rfl),
      short_long_step ["-p", v] ["--port", v] pre post hpre (fun _ => rfl),
      short_long_step ["-d", v] ["--database", v] pre post hpre (fun _ => rfl),
      short_long_step ["-U", v] ["--user", v] pre post hpre (fun _ => rfl),
      short_long_step ["-W", v] ["--password", v] pre post hpre (fun _ => rfl)⟩
  · intro v hv
    obtain ⟨cs⟩ := v
    cases cs with
    | nil => exact absurd rfl hv
    | cons c t =>
      exact ⟨short_long_step ["-c=" ++ String.mk (c :: t)] ["--config=" ++ String.mk (c :: t)]
          pre post hpre (fun _ => rfl),
        short_long_step ["-H=" ++ String.mk (c :: t)] ["--host=" ++ String.mk (c :: t)]
          pre post hpre (fun _ => rfl),
        short_long_step ["-p=" ++ String.mk (c :: t)] ["--port=" ++ String.mk (c :: t)]
          pre post hpre (fun _ => rfl),
        short_long_step ["-d=" ++ String.mk (c :: t)] ["--database=" ++ String.mk (c :: t)]
          pre post hpre (fun _ => rfl),
        short_long_step ["-U=" ++ String.mk (c :: t)] ["--user=" ++ String.mk (c :: t)]
          pre post hpre (fun _ => rfl),
        short_long_step ["-W=" ++ String.mk (c :: t)] ["--password=" ++ String.mk (c :: t)]
          pre post hpre (fun _ => rfl)⟩

/-- Witness for C6 after the positional argument `status`, followed by
`-v`: `-H db` and `--host db` give the same parse. -/
theorem short_and_long_names_agree_witness :
    (∀ a ∈ ["status"], positional a)
    ∧ rootParse ["status", "-H", "db", "-v"]
        = rootParse ["status", "--host", "db", "-v"]
    ∧ rootParse ["status", "-p=77", "-v"]
        = rootParse ["status", "--port=77", "-v"] :=
  ⟨by decide,
   ((short_and_long_names_agree ["status"] ["-v"] (by decide)).2.2.1 "db").2.1,
   ((short_and_long_names_agree ["status"] ["-v"] (by decide)).2.2.2 "77" (by decide)).2.2.1⟩


/-! ## C4: an unknown command word -/

theorem findNext_none (d : Subcommands) (word : String)
    (hreg : ∀ x, d.Name x ≠ word ∧ word ∉ d.Aliases x)
    (hbuiltin : word ∉ ["help", "completion", "__complete", "__completeNoDesc"]) :
    findNext d (children d initCmd) word = none := by
  simp only [List.mem_cons, List.mem_singleton, List.not_mem_nil, or_false, not_or] at hbuiltin
  obtain ⟨hb1, hb2, hb3, hb4⟩ := hbuiltin
  unfold findNext
  rw [List.find?_eq_none]
  intro ch _
  cases ch with
  | registered x =>
    have h1 := (hreg x).1
    have h2 := (hreg x).2
    simp [Child.Name, Child.Aliases, h1, h2]
  | helpCmd => simp [Child.Name, Child.Aliases, Ne.symm hb1]
  | completionCmd => simp [Child.Name, Child.Aliases, Ne.symm hb2]
  | completeCmd => simp [Child.Name, Child.Aliases, Ne.symm hb3, hb4]

/-- C4, counterexample: `help` is not the name of any of the seven
registered subcommands, it is the first positional word of the argument list
`help`, and the invocation runs the generated help command, returns no error
and exits with status 0. -/
theorem help_word_exits_zero :
    (∀ x, specName x ≠ "help")
    ∧ commandWords ["help"] = ["help"]
    ∧ ∀ result : Bool,
        Execute (specSubcommands result) ["help"]
          = .ok { action := .runHelpCommand [], err := false }
        ∧ main (specSubcommands result) ["help"] = 0 := by
  refine ⟨by intro x; cases x <;> decide, by decide, ?_⟩
  intro result
  cases result <;> exact ⟨rfl, rfl⟩

/-- C4, amended: when the first word that command lookup regards as
positional is neither a name or alias of one of the seven registered
subcommands nor one of the names of the commands cobra attaches itself
(`help`, `completion`, `__complete`, `__completeNoDesc`), `Execute` returns
the unknown-command error without running any command, and `main` exits
with status 1. -/
theorem unknown_command_word_exits_one (d : Subcommands) (args : List String)
    (word : String) (rest : List String)
    (hstrip : commandWords args = word :: rest)
    (hreg : ∀ x, d.Name x ≠ word ∧ word ∉ d.Aliases x)
    (hbuiltin : word ∉ ["help", "completion", "__complete", "__completeNoDesc"]) :
    Execute d args = .ok { action := .unknownCommand word, err := true }
    ∧ main d args = 1 := by
  rw [commandWords_eq] at hstrip
  have h : Execute d args = .ok { action := .unknownCommand word, err := true } := by
    rw [execute_eq]
    simp only [Command.ExecuteC, hstrip, findNext_none d word hreg hbuiltin]
  exact ⟨h, by simp only [main, h]; rfl⟩

/-- Witness for the amended C4 on `--host db bogus x`. -/
theorem unknown_command_word_exits_one_witness :
    commandWords ["--host", "db", "bogus", "x"] = ["bogus", "x"]
    ∧ (∀ x, (specSubcommands false).Name x ≠ "bogus"
          ∧ "bogus" ∉ (specSubcommands false).Aliases x)
    ∧ "bogus" ∉ ["help", "completion", "__complete", "__completeNoDesc"]
    ∧ Execute (specSubcommands false) ["--host", "db", "bogus", "x"]
        = .ok { action := .unknownCommand "bogus", err := true }
    ∧ main (specSubcommands false) ["--host", "db", "bogus", "x"] = 1 :=
  ⟨by decide, by intro x; cases x <;> decide, by decide,
   unknown_command_word_exits_one (specSubcommands false) ["--host", "db", "bogus", "x"]
     "bogus" ["x"] (by decide) (by intro x; cases x <;> decide) (by decide)⟩

/-! ## C5: no command word -/

/-- C5: the claim fails on the argument list `-vH localhost`. It consists of
valid persistent flags only: the flag parser accepts it, sets verbose and
host and finds no positional argument, exactly as for the spelling
`-v -H localhost`. For `-v -H localhost` the help text is shown and `main`
ends with status 0, as the claim says. For `-vH localhost` command lookup
takes `localhost` for a command word, because `stripFlags` skips the value
of a shorthand only after a token of two characters: `Execute` returns the
unknown-command error without showing help, and `main` exits with status
1. -/
theorem cluster_value_is_taken_for_command :
    rootParse ["-vH", "localhost"]
      = .ok ({ store :=
                 { initStore with
                   cfg := { defaultConfig with verbose := true, host := "localhost" } },
               changed := ["verbose", "host"], args := [] }, none)
    ∧ rootParse ["-v", "-H", "localhost"] = rootParse ["-vH", "localhost"]
    ∧ ∀ result : Bool,
        Execute (specSubcommands result) ["-v", "-H", "localhost"]
          = .ok { action := .showHelp, err := false }
        ∧ main (specSubcommands result) ["-v", "-H", "localhost"] = 0
        ∧ Execute (specSubcommands result) ["-vH", "localhost"]
          = .ok { action := .unknownCommand "localhost", err := true }
        ∧ main (specSubcommands result) ["-vH", "localhost"] = 1 := by
  refine ⟨rfl, rfl, ?_⟩
  intro result
  cases result <;> exact ⟨rfl, rfl, rfl, rfl⟩

/-- When command lookup finds no positional word, the flags parse without
error and `--version` was not given, `Execute` returns without panic and
without error, no registered subcommand is run, what it does is show the
help text (the root command has no `Run`), and `main` ends with status 0; in
particular for the empty argument list. -/
theorem no_subcommand_shows_help (d : Subcommands) (args : List String) (st : ParseState)
    (hstrip : commandWords args = [])
    (hparse : rootParse args = .ok (st, none))
    (hversion : st.store.version = false) :
    Execute d args = .ok { action := .showHelp, err := false }
    ∧ main d args = 0
    ∧ Execute d [] = .ok { action := .showHelp, err := false }
    ∧ main d [] = 0 := by
  rw [commandWords_eq] at hstrip
  rw [rootParse_eq] at hparse
  have h : Execute d args = .ok { action := .showHelp, err := false } := by
    rw [execute_eq]
    simp only [Command.ExecuteC, hstrip, Command.execute, hparse, andThen, hversion]
    cases st.store.help <;> simp
  exact ⟨h, by simp only [main, h]; rfl, rfl, rfl⟩

/-- The help text is shown for `--host db -p 7 -v`. -/
theorem no_subcommand_shows_help_example :
    commandWords ["--host", "db", "-p", "7", "-v"] = []
    ∧ rootParse ["--host", "db", "-p", "7", "-v"]
        = .ok ({ store :=
                   { initStore with
                     cfg := { defaultConfig with host := "db", port := 7, verbose := true } },
                 changed := ["host", "port", "verbose"], args := [] }, none)
    ∧ Execute (specSubcommands true) ["--host", "db", "-p", "7", "-v"]
        = .ok { action := .showHelp, err := false }
    ∧ main (specSubcommands true) ["--host", "db", "-p", "7", "-v"] = 0 :=
  ⟨by decide, rfl,
   (no_subcommand_shows_help (specSubcommands true) ["--host", "db", "-p", "7", "-v"]
     { store :=
         { initStore with
           cfg := { defaultConfig with host := "db", port := 7, verbose := true } },
       changed := ["host", "port", "verbose"], args := [] }
     (by decide) rfl rfl).1,
   (no_subcommand_shows_help (specSubcommands true) ["--host", "db", "-p", "7", "-v"]
     { store :=
         { initStore with
           cfg := { defaultConfig with host := "db", port := 7, verbose := true } },
       changed := ["host", "port", "verbose"], args := [] }
     (by decide) rfl rfl).2.1⟩


/-! ## C9: a port value that is not an integer -/

theorem execute_flag_error (d : Subcommands) (args : List String) (e : ParseErr)
    (hstrip : stripFlags initCmd.pflags args = [])
    (hparse : (rootFlags.Parse initStore args).2 = some e) (he : e ≠ .errHelp) :
    Execute d args = .ok { action := .flagError e, err := true } ∧ main d args = 1 := by
  have h : Execute d args = .ok { action := .flagError e, err := true } := by
    rw [execute_eq]
    simp only [Command.ExecuteC, hstrip, Command.execute, parseFlags_eq, andThen, hparse]
  exact ⟨h, by unfold main; rw [h]; rfl⟩

/-- C9, counterexample: `abc` is not an integer literal, the argument list
`__complete --port abc` supplies `--port` with it, and the invocation runs
the hidden `__complete` command, which has flag parsing disabled: `Execute`
returns no error and `main` exits with status 0. -/
theorem complete_command_exits_zero :
    (ParseInt "abc").2 = some .malformed
    ∧ ∀ result : Bool,
        Execute (specSubcommands result) ["__complete", "--port", "abc"]
          = .ok { action := .runComplete ["--port", "abc"], err := false }
        ∧ main (specSubcommands result) ["__complete", "--port", "abc"] = 0 := by
  refine ⟨by decide, ?_⟩
  intro result
  cases result <;> exact ⟨rfl, rfl⟩

theorem bad_call_fails (f : FlagSet) (args : List String) (st : ParseState) (n w : String)
    (hsup : (n, w) ∈ setCalls f false args) (hbad : f.accepts n w = false)
    (h1 : ∃ fl, f.Lookup "help" = some fl) (h2 : ∃ fl, f.ShorthandLookup 'h' = some fl) :
    ∃ e, (parseArgs f false args st).2 = some e ∧ e ≠ .errHelp := by
  cases he : (parseArgs f false args st).2 with
  | none =>
    have := (parseArgs_calls f args false st he).1 (n, w) hsup
    rw [hbad] at this
    cases this
  | some e =>
    refine ⟨e, rfl, ?_⟩
    intro h
    have := parseArgs_ne_errHelp f h1 h2 args false st
    rw [he, h] at this
    exact this rfl

theorem findNext_help (d : Subcommands)
    (hreg : ∀ x, d.Name x ≠ "help" ∧ "help" ∉ d.Aliases x) :
    findNext d (children d initCmd) "help" = some .helpCmd := by
  have h (x : CmdVar) :
      (Child.Name d (.registered x) == "help"
        || (Child.Aliases d (.registered x)).contains "help") = false := by
    have h1 := (hreg x).1
    have h2 := (hreg x).2
    simp [Child.Name, Child.Aliases, h1, h2]
  simp only [findNext, children, initCmd, List.map, List.cons_append, List.nil_append,
    List.find?, h]
  rfl

theorem executeHelp_flag_error (d : Subcommands) (args : List String) (rest : List String)
    (e : ParseErr)
    (hwords : stripFlags initCmd.pflags args = "help" :: rest)
    (hreg : ∀ x, d.Name x ≠ "help" ∧ "help" ∉ d.Aliases x)
    (hparse : (helpFlags.Parse initStore (argsMinusFirstX initCmd.pflags "help" args)).2
        = some e)
    (he : e ≠ .errHelp) :
    Execute d args = .ok { action := .flagError e, err := true } ∧ main d args = 1 := by
  have h : Execute d args = .ok { action := .flagError e, err := true } := by
    rw [execute_eq]
    simp only [Command.ExecuteC, hwords, findNext_help d hreg, executeHelpCommand,
      helpCommandFlags_eq, andThen]
    have hp : ({ formal := persistentFlags.formal ++ [helpFlag "help"] } : FlagSet).Parse
        initStore (argsMinusFirstX initCmd.pflags "help" args)
        = helpFlags.Parse initStore (argsMinusFirstX initCmd.pflags "help" args) := rfl
    rw [hp]
    simp only [hparse]
  exact ⟨h, by unfold main; rw [h]; rfl⟩

/-- C9, amended: let `w` not be an integer literal. For every argument list
without a command word that supplies port with `w` to the flag parse of the
root command, in whatever spelling and position the parser reads as that
flag and that value (`--port w`, `-p w`, `--port=w`, `-p=w`, `-pw`, after
other flags, at the end of a shorthand cluster), flag parsing fails,
`Execute` returns the error without running any command, and `main` exits
with status 1. The same holds when the command word is the generated `help`
command and the remaining arguments supply port with `w` to its flag parse.
When the first command word is no command at all, `Execute` returns the
unknown-command error before any flag is parsed, again without running a
command and with status 1. A string flag accepts every string, the empty
one included. (With any other command word, the flags are parsed by the
command found.) -/
theorem bad_port_value_fails (d : Subcommands) (args : List String) (w : String)
    (hbad : (ParseInt w).2 ≠ none) :
    (commandWords args = [] → ("port", w) ∈ suppliedFlags args →
        ∃ e, Execute d args = .ok { action := .flagError e, err := true } ∧ main d args = 1)
    ∧ (∀ rest, commandWords args = "help" :: rest →
        (∀ x, d.Name x ≠ "help" ∧ "help" ∉ d.Aliases x) →
        ("port", w) ∈ helpSuppliedFlags (argsAfterWord "help" args) →
        ∃ e, Execute d args = .ok { action := .flagError e, err := true } ∧ main d args = 1)
    ∧ (∀ word rest, commandWords args = word :: rest →
        (∀ x, d.Name x ≠ word ∧ word ∉ d.Aliases x) →
        word ∉ ["help", "completion", "__complete", "__completeNoDesc"] →
        Execute d args = .ok { action := .unknownCommand word, err := true }
        ∧ main d args = 1)
    ∧ (∀ rest : List String,
        ("port", w) ∈ suppliedFlags ("--port" :: w :: rest)
        ∧ ("port", w) ∈ suppliedFlags ("-p" :: w :: rest)
        ∧ ("port", w) ∈ suppliedFlags (("--port=" ++ w) :: rest)
        ∧ (w ≠ "" → ("port", w) ∈ suppliedFlags (("-p=" ++ w) :: rest))
        ∧ (w ≠ "" → attachedValue w.data = none →
            ("port", w) ∈ suppliedFlags (("-p" ++ w) :: rest))
        ∧ ("port", w) ∈ suppliedFlags ("-v" :: "-p" :: w :: rest)
        ∧ ("port", w) ∈ suppliedFlags ("-vp" :: w :: rest))
    ∧ (∀ (p : StringPtr) (s : Store) (v : String),
        ((Value.stringValue p).Set s v).2 = true
        ∧ ((Value.stringValue p).Set s v).1.getString p = v) := by
  have hacc : rootFlags.accepts "port" w = false := by
    have : rootFlags.accepts "port" w = ((ParseInt w).2 == none) := rfl
    rw [this]
    simpa using hbad
  have hacc2 : helpFlags.accepts "port" w = false := by
    have : helpFlags.accepts "port" w = ((ParseInt w).2 == none) := rfl
    rw [this]
    simpa using hbad
  refine ⟨?_, ?_, ?_, ?_, ?_⟩
  · intro hwords hsup
    rw [commandWords_eq] at hwords
    rw [suppliedFlags_eq] at hsup
    obtain ⟨e, he, hne⟩ := bad_call_fails rootFlags args
      { store := initStore, changed := [], args := [] } "port" w hsup hacc
      ⟨_, rfl⟩ ⟨_, rfl⟩
    exact ⟨e, execute_flag_error d args e hwords he hne⟩
  · intro rest hwords hreg hsup
    rw [commandWords_eq] at hwords
    have hsup2 : ("port", w) ∈ setCalls helpFlags false
        (argsMinusFirstX initCmd.pflags "help" args) := hsup
    obtain ⟨e, he, hne⟩ := bad_call_fails helpFlags _
      { store := initStore, changed := [], args := [] } "port" w hsup2 hacc2
      ⟨_, rfl⟩ ⟨_, rfl⟩
    exact ⟨e, executeHelp_flag_error d args rest e hwords hreg he hne⟩
  · intro word rest hwords hreg hbuiltin
    rw [commandWords_eq] at hwords
    have h : Execute d args = .ok { action := .unknownCommand word, err := true } := by
      rw [execute_eq]
      simp only [Command.ExecuteC, hwords, findNext_none d word hreg hbuiltin]
    exact ⟨h, by unfold main; rw [h]; rfl⟩
  · intro rest
    refine ⟨List.Mem.head _, List.Mem.head _, ?_, ?_, ?_, List.Mem.tail _ (List.Mem.head _),
      List.Mem.tail _ (List.Mem.head _)⟩
    · obtain ⟨cs⟩ := w
      exact List.Mem.head _
    · intro hw
      obtain ⟨cs⟩ := w
      cases cs with
      | nil => exact absurd rfl hw
      | cons c t => exact List.Mem.head _
    · intro hw hatt
      obtain ⟨cs⟩ := w
      cases cs with
      | nil => exact absurd rfl hw
      | cons c t =>
        have hs : suppliedFlags (("-p" ++ String.mk (c :: t)) :: rest)
            = ("port", String.mk (c :: t)) :: setCalls rootFlags false rest := by
          rw [suppliedFlags_eq]
          have h1 : setCalls rootFlags false (("-p" ++ String.mk (c :: t)) :: rest)
              = if (shortCalls rootFlags rest ('p' :: c :: t)).2.1 then
                  (shortCalls rootFlags rest ('p' :: c :: t)).1
                    ++ setCalls rootFlags (shortCalls rootFlags rest ('p' :: c :: t)).2.2 rest
                else (shortCalls rootFlags rest ('p' :: c :: t)).1 := rfl
          have h2 : shortCalls rootFlags rest ('p' :: c :: t)
              = match attachedValue (c :: t) with
                | some v => ([("port", String.mk v)], true, false)
                | none => ([("port", String.mk (c :: t))], true, false) := rfl
          rw [h1, h2, hatt]
          rfl
        rw [hs]
        exact List.Mem.head _
  · intro p s v
    cases p <;> exact ⟨rfl, rfl⟩

/-- Witness for the amended C9 with the value `abc`: on `-v -p abc` for the
root command and on `help --port abc` for the help command. -/
theorem bad_port_value_fails_witness :
    (ParseInt "abc").2 ≠ none
    ∧ commandWords ["-v", "-p", "abc"] = []
    ∧ ("port", "abc") ∈ suppliedFlags ["-v", "-p", "abc"]
    ∧ (∃ e, Execute (specSubcommands false) ["-v", "-p", "abc"]
              = .ok { action := .flagError e, err := true }
            ∧ main (specSubcommands false) ["-v", "-p", "abc"] = 1)
    ∧ commandWords ["help", "--port", "abc"] = ["help"]
    ∧ (∀ x, (specSubcommands false).Name x ≠ "help"
          ∧ "help" ∉ (specSubcommands false).Aliases x)
    ∧ ("port", "abc") ∈ helpSuppliedFlags (argsAfterWord "help" ["help", "--port", "abc"])
    ∧ (∃ e, Execute (specSubcommands false) ["help", "--port", "abc"]
              = .ok { action := .flagError e, err := true }
            ∧ main (specSubcommands false) ["help", "--port", "abc"] = 1) :=
  ⟨by decide, by decide, by decide,
   (bad_port_value_fails (specSubcommands false) ["-v", "-p", "abc"] "abc" (by decide)).1
     (by decide) (by decide),
   by decide, by intro x; cases x <;> decide, by decide,
   (bad_port_value_fails (specSubcommands false) ["help", "--port", "abc"] "abc"
     (by decide)).2.1 [] (by decide) (by intro x; cases x <;> decide) (by decide)⟩

end ScratchRobin
